import Mathlib

/-!
Verification of the Opacity MicroMap CPU baker
(`src/omm-sdk/src/bake_cpu_impl.cpp`, `src/shared/shared/texture.h`).

The development shallowly embeds the post-classification baker pipeline:
work items carry the per-micro-triangle opacity states produced by the
rasterization kernels, and the passes `PromoteToSpecialIndices`,
`DeduplicateExact`, `DeduplicateSimilarLSH`,
`DeduplicateSimilarBruteForce`, `CreateUsageHistograms`,
`MicromapSpatialSort` and `Serialize` are translated from the C++ source.

Floating-point inputs of the pipeline are carried as already-computed
integer values on each work item (the Morton code of the quantized UV
centroid, and the floor of the scaled UV-AABB extents used by
`ValidateWorkloadSize`); the external xxhash-64 digest and the
`std::mt19937` random stream used by the deduplication passes are
parameters of the embedding.  Machine integers are modelled as `Nat`/`Int`
with explicit truncation where the C++ code truncates.
-/

namespace Omm

/-- The four-state opacity domain.  The numeric values (`Transparent = 0`,
`Opaque = 1`, `UnknownTransparent = 2`, `UnknownOpaque = 3`) are modelled
from the spec's data model (the `OpacityState` enum lives in the public
header, which is not among the repository files given). -/
inductive OpacityState where
  | Transparent
  | Opaque
  | UnknownTransparent
  | UnknownOpaque
  deriving DecidableEq, Repr, Inhabited

/-- Numeric value of an `OpacityState`, as the C++ enum stores it. -/
def OpacityState.toU32 : OpacityState → Nat
  | .Transparent => 0
  | .Opaque => 1
  | .UnknownTransparent => 2
  | .UnknownOpaque => 3

/-- The two emitted OMM formats.  The C++ enum also has `INVALID`/`MAX_NUM`
variants which never reach the pipeline stages embedded here.  The numeric
values 1 and 2 are static-asserted in `VisibilityMapUsageHistogram`. -/
inductive OMMFormat where
  | OC1_2_State
  | OC1_4_State
  deriving DecidableEq, Repr, Inhabited

/-- Numeric (uint16) value of an `OMMFormat`, static-asserted in the source:
`OC1_2_State == 1`, `OC1_4_State == 2`. -/
def OMMFormat.toU16 : OMMFormat → Nat
  | .OC1_2_State => 1
  | .OC1_4_State => 2

/-- Output index-buffer formats. -/
inductive IndexFormat where
  | I16_UINT
  | I32_UINT
  deriving DecidableEq, Repr

/-- Status values returned by the baker. -/
inductive Result where
  | SUCCESS
  | FAILURE
  | INVALID_ARGUMENT
  | WORKLOAD_TOO_BIG
  deriving DecidableEq, Repr

/-- Bake flag bit values, from the `BakeFlagsInternal` enum. -/
def kEnableInternalThreadsBit : Nat := 1
/-- Bit 1: `DisableSpecialIndices`. -/
def kDisableSpecialIndicesBit : Nat := 2
/-- Bit 2: `Force32BitIndices`. -/
def kForce32BitIndicesBit : Nat := 4
/-- Bit 3: `DisableDuplicateDetection`. -/
def kDisableDuplicateDetectionBit : Nat := 8
/-- Bit 4: `EnableNearDuplicateDetection`. -/
def kEnableNearDuplicateDetectionBit : Nat := 16
/-- Bit 5: `EnableWorkloadValidation`. -/
def kEnableWorkloadValidationBit : Nat := 32
/-- Bit 6: `EnableAABBTesting`. -/
def kEnableAABBTestingBit : Nat := 64
/-- Bit 7: `DisableRemovePoorQualityOMM`. -/
def kDisableRemovePoorQualityOMMBit : Nat := 128
/-- Bit 8: `DisableLevelLineIntersection`. -/
def kDisableLevelLineIntersectionBit : Nat := 256
/-- Bit 9: `EnableNearDuplicateDetectionBruteForce`. -/
def kEnableNearDuplicateDetectionBruteForceBit : Nat := 512

/-- The `Options` struct of `bake_cpu_impl.cpp` (lines 399-421): each field is
the test `(flags & bit) == bit` on the corresponding `BakeFlagsInternal`
bit. -/
structure Options where
  enableInternalThreads : Bool
  disableSpecialIndices : Bool
  disableDuplicateDetection : Bool
  enableNearDuplicateDetection : Bool
  enableNearDuplicateDetectionBruteForce : Bool
  enableWorkloadValidation : Bool
  enableAABBTesting : Bool
  disableRemovePoorQualityOMM : Bool
  disableLevelLineIntersection : Bool
  deriving DecidableEq, Repr

/-- Constructor of `Options` from the bake-flags word, mirroring the C++
constructor's bit tests. -/
def Options.ofFlags (flags : Nat) : Options where
  enableInternalThreads := flags &&& kEnableInternalThreadsBit == kEnableInternalThreadsBit
  disableSpecialIndices := flags &&& kDisableSpecialIndicesBit == kDisableSpecialIndicesBit
  disableDuplicateDetection :=
    flags &&& kDisableDuplicateDetectionBit == kDisableDuplicateDetectionBit
  enableNearDuplicateDetection :=
    flags &&& kEnableNearDuplicateDetectionBit == kEnableNearDuplicateDetectionBit
  enableNearDuplicateDetectionBruteForce :=
    flags &&& kEnableNearDuplicateDetectionBruteForceBit ==
      kEnableNearDuplicateDetectionBruteForceBit
  enableWorkloadValidation :=
    flags &&& kEnableWorkloadValidationBit == kEnableWorkloadValidationBit
  enableAABBTesting := flags &&& kEnableAABBTestingBit == kEnableAABBTestingBit
  disableRemovePoorQualityOMM :=
    flags &&& kDisableRemovePoorQualityOMMBit == kDisableRemovePoorQualityOMMBit
  disableLevelLineIntersection :=
    flags &&& kDisableLevelLineIntersectionBit == kDisableLevelLineIntersectionBit

/-- Maximum subdivision level (`kMaxSubdivLevel`); the spec bounds
`maxSubdivisionLevel ≤ 12` and the LSH pass loops levels `1..12`. -/
def kMaxSubdivLevel : Nat := 12

/-- Number of subdivision-level slots in the usage histograms
(`kMaxNumSubdivLevels`). Modelled from the spec: levels range over
`0..12`. Only slots `0..12` can be non-zero for valid work items, so the
exact array size does not influence any embedded result. -/
def kMaxNumSubdivLevels : Nat := 13

namespace bird

/-- Modelled from the spec: a macro-triangle at subdivision level `L` has
`4^L` micro-triangles (`omm::bird::GetNumMicroTriangles`; `shared/bird.h`
is not among the repository files given). -/
def GetNumMicroTriangles (subdivisionLevel : Nat) : Nat := 4 ^ subdivisionLevel

/-- Modelled from the spec: `GetBitCount(format)` is 1 for `OC1_2_State`
and 2 for `OC1_4_State`. -/
def GetBitCount : OMMFormat → Nat
  | .OC1_2_State => 1
  | .OC1_4_State => 2

end bird

/-- A work item of the CPU baker (`OmmWorkItem`), after classification.
`vmStates` is the 4-state buffer written by `OmmArrayDataView::SetState`;
the mirrored 3-state buffer is the pointwise projection
`UnknownTransparent ↦ UnknownOpaque` (the view's `SetState` maintains
exactly that invariant, so it is derived here rather than stored).
`mCode` carries the Morton code of the quantized UV-triangle centroid and
`aabbX`/`aabbY` carry `⌊ΔU·W⌋`/`⌊ΔV·H⌋` of the UV-triangle AABB scaled by
the mip-0 texture size: both are computed from the `uvTri` floats in the
C++ source and enter the embedding as already-computed integers. -/
structure OmmWorkItem where
  subdivisionLevel : Nat
  vmFormat : OMMFormat
  primitiveIndices : List Nat
  vmDescOffset : Nat
  vmSpecialIndex : Int
  vmStates : List OpacityState
  mCode : Nat
  aabbX : Nat
  aabbY : Nat
  deriving DecidableEq, Repr, Inhabited

/-- `kNoSpecialIndex = 0`. -/
def kNoSpecialIndex : Int := 0

/-- Initial value of `vmDescOffset` (`0xFFFFFFFF` in the C++ constructor). -/
def kDescOffsetInvalid : Nat := 4294967295

/-- `OmmArrayDataView::GetState`: read of the 4-state buffer. -/
def OmmWorkItem.GetState (w : OmmWorkItem) (index : Nat) : OpacityState :=
  w.vmStates.getD index OpacityState.Transparent

/-- `OmmArrayDataView::Get3State`: the 3-state mirror maps
`UnknownTransparent` to `UnknownOpaque` and is otherwise the 4-state
value (maintained by `SetState`). -/
def OmmWorkItem.Get3State (w : OmmWorkItem) (index : Nat) : OpacityState :=
  match w.GetState index with
  | .UnknownTransparent => .UnknownOpaque
  | s => s

/-- `IsUnknown` from the source. -/
def IsUnknown (state : OpacityState) : Bool :=
  state == OpacityState.UnknownOpaque || state == OpacityState.UnknownTransparent

/-- `IsKnown` from the source. -/
def IsKnown (state : OpacityState) : Bool :=
  state == OpacityState.Opaque || state == OpacityState.Transparent

/-- `PromoteToSpecialIndices` (lines 1102-1139): for each work item, test
whether all micro-triangle states are equal; when not all equal and
`desc.rejectionThreshold > 0`, count the known states and, if their
fraction is below the threshold, force the item to the uniform
`UnknownTransparent` state; uniform items get
`vmSpecialIndex = -(int)commonState - 1` unless `DisableSpecialIndices`
is set.  The float `rejectionThreshold` and the float quotient
`known / (float)numMicroTriangles` are modelled as exact rationals (the
quotient via `mkRat`).  Note that
the source never consults `options.disableRemovePoorQualityOMM`. -/
def promoteWorkItem (rejectionThreshold : ℚ) (options : Options)
    (workItem : OmmWorkItem) : OmmWorkItem :=
  let numMicroTriangles := bird.GetNumMicroTriangles workItem.subdivisionLevel
  let commonState0 := workItem.GetState 0
  let allEqual0 :=
    (List.range numMicroTriangles).all fun uTriIt => workItem.GetState uTriIt == commonState0
  let rejected :=
    !allEqual0 && decide (0 < rejectionThreshold) &&
      (let known :=
        (List.range numMicroTriangles).countP fun uTriIt => IsKnown (workItem.GetState uTriIt)
       let knownFrac : ℚ := mkRat known numMicroTriangles
       decide (knownFrac < rejectionThreshold))
  let allEqual := allEqual0 || rejected
  let commonState := if rejected then OpacityState.UnknownTransparent else commonState0
  if allEqual && !options.disableSpecialIndices then
    { workItem with vmSpecialIndex := -(Int.ofNat commonState.toU32) - 1 }
  else
    workItem

/-- The loop of `PromoteToSpecialIndices` maps `promoteWorkItem` over the
work items (each iteration touches only its own item). -/
def PromoteToSpecialIndices (rejectionThreshold : ℚ) (options : Options)
    (vmWorkItems : List OmmWorkItem) : List OmmWorkItem :=
  vmWorkItems.map (promoteWorkItem rejectionThreshold options)

/-- `MergeWorkItems(to, from)` (lines 768-807): transfer `from`'s
primitive indices to `to`, clear `from`'s and mark it disabled
(`vmSpecialIndex = -1`), then merge the per-micro-triangle states into
`to` following the source's case analysis. -/
def MergeWorkItems (toItem fromItem : OmmWorkItem) : OmmWorkItem × OmmWorkItem :=
  let numMicroTriangles := bird.GetNumMicroTriangles fromItem.subdivisionLevel
  let mergedStates := (List.range numMicroTriangles).map fun uTriIt =>
    let toState := toItem.GetState uTriIt
    let fromState := fromItem.GetState uTriIt
    if toState ≠ fromState then
      if IsKnown fromState && IsKnown toState then OpacityState.UnknownOpaque
      else if IsKnown toState && IsUnknown fromState then fromState
      else toState
    else toState
  ({ toItem with
      primitiveIndices := toItem.primitiveIndices ++ fromItem.primitiveIndices
      vmStates := mergedStates },
   { fromItem with primitiveIndices := [], vmSpecialIndex := -1 })

/-- Merge the work item at `fromIdx` into the one at `toIdx` inside the
work-item list (the C++ mutates both through references; call sites always
pass two distinct valid indices). -/
def mergeAt (vmWorkItems : List OmmWorkItem) (toIdx fromIdx : Nat) : List OmmWorkItem :=
  match vmWorkItems[toIdx]?, vmWorkItems[fromIdx]? with
  | some toItem, some fromItem =>
      let merged := MergeWorkItems toItem fromItem
      (vmWorkItems.set toIdx merged.1).set fromIdx merged.2
  | _, _ => vmWorkItems

/-- The 3-state buffer as the byte sequence the C++ hashes
(`GetOmm3StateData`, one byte per micro-triangle). -/
def OmmWorkItem.Get3StateData (w : OmmWorkItem) : List Nat :=
  (List.range (bird.GetNumMicroTriangles w.subdivisionLevel)).map fun i => (w.Get3State i).toU32

/-- `DeduplicateExact` (lines 706-741): skipped when
`DisableDuplicateDetection` is set; otherwise hash each work item's
3-state buffer (xxhash-64 with seed 42 in the source, passed here as the
`digest` parameter), and on a digest collision transfer the later item's
primitives to the earlier item and disable the later item. -/
def DeduplicateExact (digest : List Nat → Nat) (options : Options)
    (vmWorkItems : List OmmWorkItem) : List OmmWorkItem :=
  if options.disableDuplicateDetection then vmWorkItems
  else
    ((List.range vmWorkItems.length).foldl
      (fun (st : List OmmWorkItem × List (Nat × Nat)) i =>
        let cur := st.1
        let digestToWorkItemIndex := st.2
        match cur[i]? with
        | none => st
        | some workItem =>
          let dg := digest workItem.Get3StateData
          match digestToWorkItemIndex.lookup dg with
          | none => (cur, digestToWorkItemIndex ++ [(dg, i)])
          | some j =>
            match cur[j]? with
            | none => st
            | some existingWorkItem =>
              let cur1 := cur.set j { existingWorkItem with
                primitiveIndices := existingWorkItem.primitiveIndices ++ workItem.primitiveIndices }
              let cur2 := cur1.set i { workItem with primitiveIndices := [], vmSpecialIndex := -1 }
              (cur2, digestToWorkItemIndex))
      (vmWorkItems, [])).1

/-- `HammingDistance3State` (lines 743-758): number of positions where the
3-state values differ (the source returns it as a float; the integer count
is kept here and the float comparisons against it are translated to exact
integer comparisons at the use sites). -/
def HammingDistance3State (workItemA workItemB : OmmWorkItem) : Nat :=
  (List.range (bird.GetNumMicroTriangles workItemA.subdivisionLevel)).countP fun uTriIt =>
    workItemA.Get3State uTriIt != workItemB.Get3State uTriIt

end Omm

namespace Omm

/-- Ordered insert into a `std::set<uint32_t>` model: a strictly ascending
list without duplicates. -/
def setInsert (s : List Nat) (x : Nat) : List Nat :=
  match s with
  | [] => [x]
  | y :: t => if x < y then x :: y :: t else if x = y then y :: t else y :: setInsert t x

/-- Bucket-map insert of `DeduplicateSimilarLSH`: append the work-item
index to the bucket of `hash`, creating the bucket when absent. -/
def bucketInsert (buckets : List (Nat × List Nat)) (hash wi : Nat) : List (Nat × List Nat) :=
  match buckets with
  | [] => [(hash, [wi])]
  | (h, b) :: t => if h = hash then (h, b ++ [wi]) :: t else (h, b) :: bucketInsert t hash wi

/-- One hash table of the LSH pass: the `k` random bit indices, the
per-work-item signature hashes and the bucket map.  (The C++ reuses the
table vectors across level iterations, but fully rewrites `bitIndices`,
clears the bucket map, and only ever reads `workItemHashes` entries of the
current batch, which are freshly written; a per-level fresh table is
therefore equivalent.) -/
structure LshHashTable where
  bitIndices : List Nat
  workItemHashes : List (Nat × Nat)
  layerHashToWorkItem : List (Nat × List Nat)

/-- Build one LSH hash table's signature hashes and buckets for the given
batch (the inner loops of lines 914-943, for one table). -/
def lshFillTable (lshHash : List Nat → Nat) (vmWorkItems : List OmmWorkItem)
    (batchWorkItems : List Nat) (bitIndices : List Nat) : LshHashTable :=
  batchWorkItems.foldl
    (fun table workItemIndex =>
      match vmWorkItems[workItemIndex]? with
      | none => table
      | some workItem =>
        let bitSamples := bitIndices.map fun randomBitIndex =>
          (workItem.Get3State randomBitIndex).toU32
        let hash := lshHash bitSamples
        { table with
          workItemHashes := table.workItemHashes ++ [(workItemIndex, hash)]
          layerHashToWorkItem := bucketInsert table.layerHashToWorkItem hash workItemIndex })
    { bitIndices := bitIndices, workItemHashes := [], layerHashToWorkItem := [] }

/-- Inner gathering loop over one bucket (lines 964-978): skip the item
itself and items that have acquired a special index; stop as soon as the
set already holds more than `3 * L` candidates; otherwise insert. -/
def lshGatherBucket (cur : List OmmWorkItem) (workItemIndex cap : Nat) :
    List Nat → List Nat → List Nat
  | pm, [] => pm
  | pm, potentialWorkItemIndex :: rest =>
    if potentialWorkItemIndex = workItemIndex then
      lshGatherBucket cur workItemIndex cap pm rest
    else
      match cur[potentialWorkItemIndex]? with
      | none => lshGatherBucket cur workItemIndex cap pm rest
      | some potentialWorkItem =>
        if potentialWorkItem.vmSpecialIndex ≠ kNoSpecialIndex then
          lshGatherBucket cur workItemIndex cap pm rest
        else if pm.length > cap then pm
        else lshGatherBucket cur workItemIndex cap (setInsert pm potentialWorkItemIndex) rest

/-- Candidate gathering over all hash tables (lines 953-979). -/
def lshGather (cur : List OmmWorkItem) (tables : List LshHashTable)
    (workItemIndex l : Nat) : List Nat :=
  tables.foldl
    (fun pm table =>
      match table.workItemHashes.lookup workItemIndex with
      | none => pm
      | some hash =>
        match table.layerHashToWorkItem.lookup hash with
        | none => pm
        | some bucket => lshGatherBucket cur workItemIndex (3 * l) pm bucket)
    []

/-- Nearest-candidate selection of the LSH merge pass (lines 981-994): among
the gathered candidates (in ascending `std::set` order) pick the first one
of minimal Hamming distance below `r = 0.15·d`; the float comparison
`dist < 0.15f·d` is translated to the exact `20·dist < 3·d` (no integer
lies between the two bounds for any `d = 4^L`, `L ≤ 12`). -/
def lshPickNearest (cur : List OmmWorkItem) (workItem : OmmWorkItem)
    (potentialMatches : List Nat) (d : Nat) : Option (Nat × Nat) :=
  potentialMatches.foldl
    (fun acc potentialMatch =>
      match cur[potentialMatch]? with
      | none => acc
      | some maybeSimilarWorkItem =>
        let dist := HammingDistance3State workItem maybeSimilarWorkItem
        let below := match acc with
          | none => true
          | some md => dist < md.1
        if 20 * dist < 3 * d && below then some (dist, potentialMatch) else acc)
    none

/-- Merge pass of the LSH deduplicator for one subdivision level
(lines 946-1016). -/
def lshMergePass (tables : List LshHashTable) (batchWorkItems : List Nat) (l : Nat)
    (d : Nat) (vmWorkItems : List OmmWorkItem) : List OmmWorkItem :=
  batchWorkItems.foldl
    (fun cur workItemIndex =>
      match cur[workItemIndex]? with
      | none => cur
      | some workItem =>
        if workItem.vmSpecialIndex ≠ kNoSpecialIndex then cur
        else
          let potentialMatches := lshGather cur tables workItemIndex l
          match lshPickNearest cur workItem potentialMatches d with
          | some nearest => mergeAt cur workItemIndex nearest.2
          | none => cur)
    vmWorkItems

/-- Batch selection of the LSH pass (lines 847-861): indices of the work
items with no special index, format `OC1_4_State` and the given
subdivision level. -/
def lshBatch (vmWorkItems : List OmmWorkItem) (subdivisionLevel : Nat) : List Nat :=
  (List.range vmWorkItems.length).filter fun i =>
    match vmWorkItems[i]? with
    | none => false
    | some workItem =>
      workItem.vmSpecialIndex == kNoSpecialIndex &&
      workItem.vmFormat == OMMFormat.OC1_4_State &&
      workItem.subdivisionLevel == subdivisionLevel

/-- Body of the LSH pass for one subdivision level (lines 843-1017),
threading the position in the `std::mt19937` random stream.  `lshRng`
enumerates the stream of `mt()` values (the generator is seeded with the
fixed constant 42 in the source); `lshLK` yields the table count `L` and
signature width `k`, whose source computation
(`L = ⌈n^{1/4}⌉`, `k = ⌈log(n)·d/(c·r)⌉`) is single-precision
floating-point arithmetic and therefore enters the embedding as a
parameter. -/
def lshLevelPass (lshHash : List Nat → Nat) (lshRng : Nat → Nat)
    (lshLK : Nat → Nat → Nat × Nat) (subdivisionLevel : Nat)
    (st : List OmmWorkItem × Nat) : List OmmWorkItem × Nat :=
  let vmWorkItems := st.1
  let ctr := st.2
  let batchWorkItems := lshBatch vmWorkItems subdivisionLevel
  if batchWorkItems.length = 0 then st
  else
    let numMicroTriangles := bird.GetNumMicroTriangles subdivisionLevel
    let n := batchWorkItems.length
    let d := numMicroTriangles
    let lk := lshLK n d
    let l := lk.1
    if l = 0 then st
    else
      let k := lk.2
      if k = 0 then st
      else
        let tables := (List.range l).map fun tableIt =>
          let bitIndices := (List.range k).map fun kIt =>
            lshRng (ctr + tableIt * k + kIt) &&& (numMicroTriangles - 1)
          lshFillTable lshHash vmWorkItems batchWorkItems bitIndices
        (lshMergePass tables batchWorkItems l d vmWorkItems, ctr + l * k)

/-- `DeduplicateSimilarLSH` (lines 809-1025): a no-op unless
`EnableNearDuplicateDetection` is set and
`EnableNearDuplicateDetectionBruteForce` is clear; otherwise run
`iterations` attempts, each sweeping subdivision levels `1..12`.  The
`match`/`noMatch` counters of the source are diagnostic only and are not
modelled. -/
def DeduplicateSimilarLSH (lshHash : List Nat → Nat) (lshRng : Nat → Nat)
    (lshLK : Nat → Nat → Nat × Nat) (options : Options)
    (vmWorkItems : List OmmWorkItem) (iterations : Nat) : List OmmWorkItem :=
  if !options.enableNearDuplicateDetection || options.enableNearDuplicateDetectionBruteForce then
    vmWorkItems
  else
    ((List.range iterations).foldl
      (fun st _ =>
        ((List.range kMaxSubdivLevel).map (· + 1)).foldl
          (fun st2 subdivisionLevel => lshLevelPass lshHash lshRng lshLK subdivisionLevel st2)
          st)
      (vmWorkItems, 0)).1

/-- Window scan of `DeduplicateSimilarBruteForce` for one base item
(lines 1055-1087): find in the window the nearest candidate of the same
level whose normalized 3-state Hamming distance is below
`kMergeThreshold = 0.1`; the float comparison `numDiff/d < 0.1f` is
translated to the exact `10·numDiff < d` (no integer count lies between
the two bounds for any `d = 4^L`, `L ≤ 12`). -/
def bruteForceFindNearest (cur : List OmmWorkItem) (workItemA : OmmWorkItem)
    (mergedWorkItems : List Nat) (searchStart searchEnd : Nat) : Option (Nat × Nat) :=
  (List.range' searchStart (searchEnd - searchStart)).foldl
    (fun acc itB =>
      match cur[itB]? with
      | none => acc
      | some workItemB =>
        if workItemB.vmSpecialIndex ≠ kNoSpecialIndex then acc
        else if workItemB.vmFormat ≠ OMMFormat.OC1_4_State then acc
        else if workItemB.primitiveIndices.isEmpty then acc
        else if workItemA.subdivisionLevel ≠ workItemB.subdivisionLevel then acc
        else if mergedWorkItems.contains itB then acc
        else
          let numDiff := HammingDistance3State workItemA workItemB
          let below := match acc with
            | none => true
            | some md => numDiff < md.1
          if 10 * numDiff < bird.GetNumMicroTriangles workItemA.subdivisionLevel && below then
            some (numDiff, itB)
          else acc)
    none

/-- `kMaxComparsions = 2048`: the brute-force pass's window size. -/
def kMaxComparsions : Nat := 2048

/-- `DeduplicateSimilarBruteForce` (lines 1027-1100): a no-op unless both
`EnableNearDuplicateDetection` and `EnableNearDuplicateDetectionBruteForce`
are set; otherwise scan, for every candidate base item, a window of up to
2048 successors and merge the nearest near-duplicate into it. -/
def DeduplicateSimilarBruteForce (options : Options)
    (vmWorkItems : List OmmWorkItem) : List OmmWorkItem :=
  if !options.enableNearDuplicateDetection || !options.enableNearDuplicateDetectionBruteForce then
    vmWorkItems
  else if vmWorkItems.length = 0 then vmWorkItems
  else
    ((List.range (vmWorkItems.length - 1)).foldl
      (fun (st : List OmmWorkItem × List Nat) itA =>
        let cur := st.1
        let mergedWorkItems := st.2
        match cur[itA]? with
        | none => st
        | some workItemA =>
          if workItemA.vmSpecialIndex ≠ kNoSpecialIndex then st
          else if workItemA.vmFormat ≠ OMMFormat.OC1_4_State then st
          else
            let searchStart := itA + 1
            let searchEnd := min (kMaxComparsions + searchStart) cur.length
            match bruteForceFindNearest cur workItemA mergedWorkItems searchStart searchEnd with
            | some nearest =>
              (mergeAt cur itA nearest.2, mergedWorkItems ++ [itA, nearest.2])
            | none => st)
      (vmWorkItems, [])).1

end Omm

namespace Omm

/-- `CreateUsageHistograms` (lines 1141-1156): for every work item without
a special index, add 1 to the array histogram and the primitive count to
the index histogram at the item's `(format, subdivisionLevel)` slot.  The
histograms are modelled as counting functions (the C++ uses a fixed
two-dimensional array of atomic counters). -/
def CreateUsageHistograms (vmWorkItems : List OmmWorkItem) :
    (OMMFormat → Nat → Nat) × (OMMFormat → Nat → Nat) :=
  vmWorkItems.foldl
    (fun (st : (OMMFormat → Nat → Nat) × (OMMFormat → Nat → Nat)) workItem =>
      if workItem.vmSpecialIndex = kNoSpecialIndex then
        ((fun f l => st.1 f l +
            if f = workItem.vmFormat ∧ l = workItem.subdivisionLevel then 1 else 0),
         (fun f l => st.2 f l +
            if f = workItem.vmFormat ∧ l = workItem.subdivisionLevel then
              workItem.primitiveIndices.length
            else 0))
      else st)
    ((fun _ _ => 0), (fun _ _ => 0))

/-- Sort key of `MicromapSpatialSort` (lines 1158-1205): special items get
`(1 << 63) | workItemIndex`; other items get the subdivision level in the
high bits and the Morton code of the quantized UV centroid in the low bits
(the source asserts `mCode < 2^60`). -/
def sortKeyOf (vmIndex : Nat) (vm : OmmWorkItem) : Nat :=
  if vm.vmSpecialIndex ≠ kNoSpecialIndex then (1 <<< 63) ||| vmIndex
  else (vm.subdivisionLevel <<< 60) ||| vm.mCode

/-- The comparator `std::greater<std::pair<uint64_t, uint32_t>>` as a
non-strict `le`-style relation (`a` sorts no later than `b`),
i.e. lexicographic `a ≥ b`.  All sorted pairs are distinct (the second
component is the work-item index), so the relation is a total order on
them; `std::sort` with the strict comparator and any sort under this
reflexive closure produce the same, unique sorted permutation. -/
def pairGE (a b : Nat × Nat) : Prop :=
  b.1 < a.1 ∨ (a.1 = b.1 ∧ b.2 ≤ a.2)

instance : DecidableRel pairGE := fun a b => by unfold pairGE; infer_instance

instance : IsTotal (Nat × Nat) pairGE :=
  ⟨fun a b => by unfold pairGE; omega⟩

instance : IsTrans (Nat × Nat) pairGE :=
  ⟨fun a b c hab hbc => by unfold pairGE at *; omega⟩

/-- The unsorted `sortKeys` array (lines 1170-1200): one
`(key, vmIndex)` pair per work item. -/
def sortKeysInit (vmWorkItems : List OmmWorkItem) : List (Nat × Nat) :=
  (List.range vmWorkItems.length).map fun vmIndex =>
    (sortKeyOf vmIndex (vmWorkItems.getD vmIndex default), vmIndex)

/-- `MicromapSpatialSort`: compute each work item's key and sort the
`(key, index)` pairs descending. -/
def MicromapSpatialSort (vmWorkItems : List OmmWorkItem) : List (Nat × Nat) :=
  (sortKeysInit vmWorkItems).insertionSort pairGE

/-- Conversion `uint32_t → int32_t` (two's complement), used where the C++
assigns `vm.vmDescOffset` (a `uint32_t`) into the `int32_t` index
buffer. -/
def toInt32 (u : Nat) : Int :=
  if u % 4294967296 < 2147483648 then ((u % 4294967296 : Nat) : Int)
  else ((u % 4294967296 : Nat) : Int) - 4294967296

/-- Conversion `int32_t → int16_t` (two's complement), used by the 16-bit
index narrowing. -/
def toInt16 (i : Int) : Int :=
  let u := i % 65536
  if u < 32768 then u else u - 65536

/-- Value of `(int32_t)SpecialIndex::FullyUnknownOpaque`, the default fill
of the output index buffer.  Modelled from the spec: §8 states that
degenerate and disabled triangles map to −4 (`FullyUnknownOpaque`), which
also matches the source's own promotion formula `-(int)state - 1` with
`UnknownOpaque = 3`.  (The spec's §3 sentence listing "−1 FullyOpaque,
−2 FullyTransparent, −3 FullyUnknownOpaque, −4 FullyUnknownTransparent"
contradicts both §8 and that formula; the §8 numbering is used.) -/
def kFullyUnknownOpaque : Int := -4

/-- One entry of the output descriptor array (`{subdivisionLevel, format,
offset}`). -/
structure OmmDescModel where
  subdivisionLevel : Nat
  format : Nat
  offset : Nat
  deriving DecidableEq, Repr

/-- One histogram record (`{count, subdivisionLevel, format}`). -/
structure HistRecordModel where
  count : Nat
  subdivisionLevel : Nat
  format : Nat
  deriving DecidableEq, Repr

/-- The finalized bake result (`BakeResultImpl` after `Finalize`). -/
structure BakeResultModel where
  ommArrayData : List Nat
  ommDescArray : List OmmDescModel
  ommIndexBuffer : List Int
  ommArrayHistogram : List HistRecordModel
  ommIndexHistogram : List HistRecordModel
  ommIndexFormat : IndexFormat
  deriving DecidableEq, Repr

/-- State packing of `Serialize` (lines 1253-1267): write the `4^L` states
of one work item into the array blob at byte offset `ommArrayDataOffset`.
`uint8_t val = state << shift` truncates to a byte (modelled `% 256`);
out-of-range byte stores (possible in the C++ only for work items whose
format differs from the global one, where they are heap overflows) are
dropped by `List.set`'s out-of-range no-op. -/
def writeStates (data : List Nat) (ommArrayDataOffset : Nat) (vm : OmmWorkItem) : List Nat :=
  let numMicroTriangles := bird.GetNumMicroTriangles vm.subdivisionLevel
  let is2State := vm.vmFormat == OMMFormat.OC1_2_State
  (List.range numMicroTriangles).foldl
    (fun d uTriIt =>
      let state := (vm.GetState uTriIt).toU32
      let val :=
        if is2State then (state <<< (uTriIt &&& 7)) % 256
        else (state <<< ((uTriIt &&& 3) <<< 1)) % 256
      let byteIndex := uTriIt >>> (2 + (if is2State then 1 else 0))
      d.set (ommArrayDataOffset + byteIndex)
        (d.getD (ommArrayDataOffset + byteIndex) 0 ||| val))
    data

/-- The per-item loop of `Serialize` (lines 1239-1272) over the sorted
keys: special items are skipped; each other item first checks
`ommArrayDataOffset >= ommArrayDataSize` (returning `FAILURE`), then emits
its descriptor, packs its states, records its `vmDescOffset` and advances
the byte cursor by `max((4^L * ommBitCount) >> 3, 1)`.  Descriptor
emission is modelled as an append (the C++ stores into the pre-sized
descriptor vector at `vmDescOffset`, which the serializer theorems show
never exceeds the pre-sized count before the failure check fires). -/
def serializeLoop (ommBitCount ommArrayDataSize : Nat) :
    List (Nat × Nat) → List OmmWorkItem → Nat → Nat → List OmmDescModel → List Nat →
    Except Result (List OmmWorkItem × List OmmDescModel × List Nat)
  | [], vmWorkItems, _, _, descs, data => .ok (vmWorkItems, descs, data)
  | (_, vmIndex) :: rest, vmWorkItems, vmDescOffset, ommArrayDataOffset, descs, data =>
    match vmWorkItems[vmIndex]? with
    | none => serializeLoop ommBitCount ommArrayDataSize rest vmWorkItems vmDescOffset
        ommArrayDataOffset descs data
    | some vm =>
      if vm.vmSpecialIndex = kNoSpecialIndex then
        if ommArrayDataOffset ≥ ommArrayDataSize then .error Result.FAILURE
        else
          let numMicroTriangles := bird.GetNumMicroTriangles vm.subdivisionLevel
          let descs1 := descs ++
            [{ subdivisionLevel := vm.subdivisionLevel, format := vm.vmFormat.toU16,
               offset := ommArrayDataOffset }]
          let data1 := writeStates data ommArrayDataOffset vm
          let vmWorkItems1 := vmWorkItems.set vmIndex { vm with vmDescOffset := vmDescOffset }
          serializeLoop ommBitCount ommArrayDataSize rest vmWorkItems1 (vmDescOffset + 1)
            (ommArrayDataOffset + max ((numMicroTriangles * ommBitCount) >>> 3) 1) descs1 data1
      else
        serializeLoop ommBitCount ommArrayDataSize rest vmWorkItems vmDescOffset
          ommArrayDataOffset descs data

/-- Byte cost of one work item at subdivision level `l` in the array blob:
`max((4^l * ommBitCount) >> 3, 1)` (the global format's bit count is used
for every item). -/
def arrayByteAdvance (ommBitCount l : Nat) : Nat :=
  max ((bird.GetNumMicroTriangles l * ommBitCount) >>> 3) 1

/-- Histogram record emission of `Serialize` (lines 1284-1301): one record
per `(format, level)` slot with a non-zero count, formats outer, levels
inner. -/
def histogramRecords (histogram : OMMFormat → Nat → Nat) : List HistRecordModel :=
  [OMMFormat.OC1_2_State, OMMFormat.OC1_4_State].foldl
    (fun acc vmFormat =>
      (List.range kMaxNumSubdivLevels).foldl
        (fun acc2 subDivLvl =>
          let vmCount := histogram vmFormat subDivLvl
          if vmCount ≠ 0 then
            acc2 ++ [{ count := vmCount, subdivisionLevel := subDivLvl,
                       format := vmFormat.toU16 }]
          else acc2)
        acc)
    []

/-- The bake-input fields of `BakeInputDesc` that the embedded pipeline
stages read.  `rejectionThreshold` is the float threshold as an exact
rational. -/
structure BakeInputDescModel where
  ommFormat : OMMFormat
  rejectionThreshold : ℚ
  bakeFlags : Nat
  indexCount : Nat
  deriving DecidableEq, Repr

/-- Index-buffer fill of `Serialize` (lines 1305-1321): size to the
triangle count, pre-fill with `FullyUnknownOpaque`, then for every
primitive of every work item write the item's special index or its
`vmDescOffset` (a `uint32_t` stored into an `int32_t` entry). -/
def fillIndexBuffer (triangleCount : Nat) (vmWorkItems : List OmmWorkItem) : List Int :=
  vmWorkItems.foldl
    (fun buf vm =>
      vm.primitiveIndices.foldl
        (fun buf2 primitiveIndex =>
          buf2.set primitiveIndex
            (if vm.vmSpecialIndex ≠ kNoSpecialIndex then vm.vmSpecialIndex
             else toInt32 vm.vmDescOffset))
        buf)
    (List.replicate triangleCount kFullyUnknownOpaque)

/-- `ommDescArrayCount` of `Serialize` (lines 1216-1223): the sum of the
array histogram's counts at the global `ommFormat` over all
subdivision-level slots. -/
def ommDescArrayCountOf (ommArrayHistogram : OMMFormat → Nat → Nat) (ommFormat : OMMFormat) :
    Nat :=
  ((List.range kMaxNumSubdivLevels).map fun i => ommArrayHistogram ommFormat i).sum

/-- `ommArrayDataSize` of `Serialize` (lines 1216-1223): the total byte
size of the array blob, summed from the array histogram at the global
`ommFormat` with the per-level byte cost `arrayByteAdvance`. -/
def ommArrayDataSizeOf (ommArrayHistogram : OMMFormat → Nat → Nat) (ommFormat : OMMFormat) :
    Nat :=
  ((List.range kMaxNumSubdivLevels).map fun i =>
    ommArrayHistogram ommFormat i * arrayByteAdvance (bird.GetBitCount ommFormat) i).sum

/-- Tail of `Serialize` (lines 1276-1344): histogram records, index-buffer
fill and the optional 16-bit narrowing (`triangleCount ≤ INT16_MAX` and
`Force32BitIndices` clear), then `Finalize` with the chosen index
format. -/
def serializeFinish (desc : BakeInputDescModel) (ah ihist : OMMFormat → Nat → Nat)
    (st : List OmmWorkItem × List OmmDescModel × List Nat) : BakeResultModel :=
  if desc.indexCount / 3 ≤ 32767 &&
      !(desc.bakeFlags &&& kForce32BitIndicesBit == kForce32BitIndicesBit) then
    { ommArrayData := st.2.2, ommDescArray := st.2.1,
      ommIndexBuffer := (fillIndexBuffer (desc.indexCount / 3) st.1).map toInt16,
      ommArrayHistogram := histogramRecords ah, ommIndexHistogram := histogramRecords ihist,
      ommIndexFormat := IndexFormat.I16_UINT }
  else
    { ommArrayData := st.2.2, ommDescArray := st.2.1,
      ommIndexBuffer := fillIndexBuffer (desc.indexCount / 3) st.1,
      ommArrayHistogram := histogramRecords ah, ommIndexHistogram := histogramRecords ihist,
      ommIndexFormat := IndexFormat.I32_UINT }

/-- `Serialize` (lines 1207-1345): sum the global format's array histogram
into `ommDescArrayCount` and `ommArrayDataSize`, fail above 4 GiB
(`uint32` offset exhausted), run the per-item loop when any descriptor is
due, then emit histogram records and the (possibly narrowed) index
buffer. -/
def Serialize (desc : BakeInputDescModel) (vmWorkItems : List OmmWorkItem)
    (ommArrayHistogram ommIndexHistogram : OMMFormat → Nat → Nat)
    (sortKeys : List (Nat × Nat)) : Except Result BakeResultModel :=
  if ommArrayDataSizeOf ommArrayHistogram desc.ommFormat > 4294967295 then
    .error Result.FAILURE
  else
    match (if ommDescArrayCountOf ommArrayHistogram desc.ommFormat ≠ 0 then
        serializeLoop (bird.GetBitCount desc.ommFormat)
          (ommArrayDataSizeOf ommArrayHistogram desc.ommFormat) sortKeys vmWorkItems 0 0 []
          (List.replicate (ommArrayDataSizeOf ommArrayHistogram desc.ommFormat) 0)
      else .ok (vmWorkItems, [], [])) with
    | .error e => .error e
    | .ok st => .ok (serializeFinish desc ommArrayHistogram ommIndexHistogram st)

/-- `kMaxWorkloadSize = 1 << 27` ("128 * 1024x1024 texels"). -/
def kMaxWorkloadSize : Nat := 1 <<< 27

/-- `ValidateWorkloadSize` (lines 493-522): a no-op unless
`EnableWorkloadValidation` is set; otherwise accumulate, over the work
items, the product of the two floored scaled UV-AABB extents (carried on
each item as `aabbX`/`aabbY`, see `OmmWorkItem`), and reject with
`WORKLOAD_TOO_BIG` when the sum exceeds `kMaxWorkloadSize`. -/
def ValidateWorkloadSize (options : Options) (vmWorkItems : List OmmWorkItem) : Result :=
  if !options.enableWorkloadValidation then Result.SUCCESS
  else if vmWorkItems.foldl (fun acc workItem => acc + workItem.aabbX * workItem.aabbY) 0 >
      kMaxWorkloadSize then Result.WORKLOAD_TOO_BIG
  else Result.SUCCESS

/-- The flag check at the top of `Resample` (lines 527-528):
`EnableAABBTesting` together with an active level-line-intersection path
is rejected.  The classification work of `Resample` itself (rasterization
against the alpha texture) is floating-point sampling; its per-item output
is the `vmStates` buffer, which the embedded pipeline takes as input on
each work item. -/
def ResampleFlagCheck (options : Options) : Result :=
  if options.enableAABBTesting && !options.disableLevelLineIntersection then
    Result.INVALID_ARGUMENT
  else Result.SUCCESS

/-- Lift a `Result` into the pipeline's error monad
(`RETURN_STATUS_IF_FAILED`). -/
def guardResult (r : Result) : Except Result Unit :=
  if r = Result.SUCCESS then .ok () else .error r

/-- The work-item passes of `BakeOutputImpl::BakeImpl` (lines 1370-1378)
in order: special-index promotion, exact deduplication, the LSH
near-duplicate pass (3 iterations), the brute-force near-duplicate pass,
and re-promotion. -/
def pipelineWorkItems (digest lshHash : List Nat → Nat) (lshRng : Nat → Nat)
    (lshLK : Nat → Nat → Nat × Nat) (desc : BakeInputDescModel) (options : Options)
    (vmWorkItems : List OmmWorkItem) : List OmmWorkItem :=
  PromoteToSpecialIndices desc.rejectionThreshold options
    (DeduplicateSimilarBruteForce options
      (DeduplicateSimilarLSH lshHash lshRng lshLK options
        (DeduplicateExact digest options
          (PromoteToSpecialIndices desc.rejectionThreshold options vmWorkItems)) 3))

/-- The output stages of `BakeOutputImpl::BakeImpl` (lines 1380-1388):
usage histograms, spatial sort and serialization of the fully
deduplicated work items. -/
def bakeSerializeStage (desc : BakeInputDescModel) (vmWorkItems : List OmmWorkItem) :
    Except Result BakeResultModel :=
  Serialize desc vmWorkItems (CreateUsageHistograms vmWorkItems).1
    (CreateUsageHistograms vmWorkItems).2 (MicromapSpatialSort vmWorkItems)

/-- `BakeOutputImpl::BakeImpl` (lines 1348-1392) from the point where the
work items exist and carry their classified states: workload validation,
the `Resample` flag check, then the item passes and the output stages.
`digest`, `lshHash`, `lshRng` and `lshLK` parametrize the external
xxhash-64 / `std::mt19937` calls and the float-computed LSH table
parameters. -/
def BakeImpl (digest lshHash : List Nat → Nat) (lshRng : Nat → Nat)
    (lshLK : Nat → Nat → Nat × Nat) (desc : BakeInputDescModel)
    (vmWorkItems : List OmmWorkItem) : Except Result BakeResultModel :=
  guardResult (ValidateWorkloadSize (Options.ofFlags desc.bakeFlags) vmWorkItems) >>= fun _ =>
    guardResult (ResampleFlagCheck (Options.ofFlags desc.bakeFlags)) >>= fun _ =>
      bakeSerializeStage desc
        (pipelineWorkItems digest lshHash lshRng lshLK desc (Options.ofFlags desc.bakeFlags)
          vmWorkItems)

/-- The `Wrap` case of `GetTexCoord` (`texture.h` lines 36-38) for one
component: `int2(uint2(texCoord) % uint2(texSize))`, i.e. the coordinate
and the size are converted to `uint32_t` (two's complement, modelled as
`mod 2^32`), the unsigned remainder is taken, and the result is
reinterpreted as a (nonnegative) signed integer. -/
def wrapCoord (texCoord texSize : Int) : Int :=
  Int.ofNat ((texCoord % 4294967296).toNat % (texSize % 4294967296).toNat)

/-- `GetTexCoord<TextureAddressMode::Wrap>`: componentwise `wrapCoord`. -/
def GetTexCoordWrap (texCoord texSize : Int × Int) : Int × Int :=
  (wrapCoord texCoord.1 texSize.1, wrapCoord texCoord.2 texSize.2)

end Omm

namespace Omm

theorem getD_map_range {α : Type} {n i : Nat} (hi : i < n) (f : Nat → α) (d : α) :
    ((List.range n).map f).getD i d = f i := by
  simp [List.getD_eq_getElem?_getD, List.getElem?_range, hi]

/-- C10: In `MergeWorkItems(to, from)`, for every micro-triangle index, the
merged state of `to` is Known (Opaque or Transparent) if and only if both
`to` and `from` held that same Known state before the merge; hence every
deduplication merge preserves or widens the set of Unknown micro-triangles
and never converts an Unknown cell into a Known one. -/
theorem C10_merge_known_iff (toItem fromItem : OmmWorkItem) (i : Nat)
    (hi : i < bird.GetNumMicroTriangles fromItem.subdivisionLevel) :
    (IsKnown ((MergeWorkItems toItem fromItem).1.GetState i) = true ↔
      toItem.GetState i = fromItem.GetState i ∧ IsKnown (toItem.GetState i) = true) ∧
    (IsUnknown (toItem.GetState i) = true →
      IsUnknown ((MergeWorkItems toItem fromItem).1.GetState i) = true) := by
  have hmerged : (MergeWorkItems toItem fromItem).1.GetState i =
      (let toState := toItem.GetState i
       let fromState := fromItem.GetState i
       if toState ≠ fromState then
         if IsKnown fromState && IsKnown toState then OpacityState.UnknownOpaque
         else if IsKnown toState && IsUnknown fromState then fromState
         else toState
       else toState) := by
    show (OmmWorkItem.GetState _ i) = _
    unfold OmmWorkItem.GetState MergeWorkItems
    simp only []
    exact getD_map_range hi _ _
  rw [hmerged]
  generalize toItem.GetState i = t
  generalize fromItem.GetState i = f
  cases t <;> cases f <;> decide

/-- Closed instance of `C10_merge_known_iff` at a concrete pair of work
items and micro-triangle index. -/
theorem C10_merge_known_iff_witness :
    IsKnown ((MergeWorkItems
        { subdivisionLevel := 1, vmFormat := OMMFormat.OC1_4_State, primitiveIndices := [0],
          vmDescOffset := kDescOffsetInvalid, vmSpecialIndex := 0,
          vmStates := [OpacityState.Opaque, OpacityState.Transparent,
            OpacityState.UnknownOpaque, OpacityState.Opaque],
          mCode := 0, aabbX := 0, aabbY := 0 }
        { subdivisionLevel := 1, vmFormat := OMMFormat.OC1_4_State, primitiveIndices := [1],
          vmDescOffset := kDescOffsetInvalid, vmSpecialIndex := 0,
          vmStates := [OpacityState.Opaque, OpacityState.Opaque,
            OpacityState.Transparent, OpacityState.UnknownTransparent],
          mCode := 0, aabbX := 0, aabbY := 0 }).1.GetState 0) = true ↔
      OmmWorkItem.GetState
        { subdivisionLevel := 1, vmFormat := OMMFormat.OC1_4_State, primitiveIndices := [0],
          vmDescOffset := kDescOffsetInvalid, vmSpecialIndex := 0,
          vmStates := [OpacityState.Opaque, OpacityState.Transparent,
            OpacityState.UnknownOpaque, OpacityState.Opaque],
          mCode := 0, aabbX := 0, aabbY := 0 } 0 =
      OmmWorkItem.GetState
        { subdivisionLevel := 1, vmFormat := OMMFormat.OC1_4_State, primitiveIndices := [1],
          vmDescOffset := kDescOffsetInvalid, vmSpecialIndex := 0,
          vmStates := [OpacityState.Opaque, OpacityState.Opaque,
            OpacityState.Transparent, OpacityState.UnknownTransparent],
          mCode := 0, aabbX := 0, aabbY := 0 } 0 ∧
      IsKnown (OmmWorkItem.GetState
        { subdivisionLevel := 1, vmFormat := OMMFormat.OC1_4_State, primitiveIndices := [0],
          vmDescOffset := kDescOffsetInvalid, vmSpecialIndex := 0,
          vmStates := [OpacityState.Opaque, OpacityState.Transparent,
            OpacityState.UnknownOpaque, OpacityState.Opaque],
          mCode := 0, aabbX := 0, aabbY := 0 } 0) = true :=
  (C10_merge_known_iff _ _ 0 (by decide)).1

end Omm

namespace Omm

/-- Concrete mixed work item for the rejection-threshold bug: two Known
and two Unknown micro-triangle states (known fraction 1/2). -/
def c4Item : OmmWorkItem :=
  { subdivisionLevel := 1, vmFormat := OMMFormat.OC1_4_State, primitiveIndices := [0],
    vmDescOffset := kDescOffsetInvalid, vmSpecialIndex := 0,
    vmStates := [OpacityState.Opaque, OpacityState.Transparent,
      OpacityState.UnknownOpaque, OpacityState.UnknownOpaque],
    mCode := 0, aabbX := 0, aabbY := 0 }

/-- C4: When the `DisableRemovePoorQualityOMM` bake flag is set,
`rejectionThreshold` filtering should be disabled — but the source parses
the flag into `Options::disableRemovePoorQualityOMM` and then never reads
it: with the flag set and `rejectionThreshold = 3/5`, a work item whose
known fraction is `1/2 < 3/5` is still forced to the
`FullyUnknownTransparent` special index `-3`, and the promotion pass's
output is identical with and without the flag. -/
theorem C4_rejection_filter_ignores_flag :
    (Options.ofFlags kDisableRemovePoorQualityOMMBit).disableRemovePoorQualityOMM = true ∧
    (PromoteToSpecialIndices (mkRat 3 5) (Options.ofFlags kDisableRemovePoorQualityOMMBit)
        [c4Item]).map (fun w => w.vmSpecialIndex) = [-3] ∧
    PromoteToSpecialIndices (mkRat 3 5) (Options.ofFlags kDisableRemovePoorQualityOMMBit) [c4Item] =
      PromoteToSpecialIndices (mkRat 3 5) (Options.ofFlags 0) [c4Item] := by
  refine ⟨by decide, by decide, by decide⟩

/-- C8 counterexample: for the Wrap addressing mode with a negative
coordinate and a texture size that is not a power of two, the code's
`uint32_t` cast does not compute `coord mod size`: at `coord = -1`,
`size = 3` it returns `0`, while `-1 mod 3 = 2`. -/
theorem C8_wrap_counterexample :
    wrapCoord (-1) 3 = 0 ∧ (-1 : Int) % 3 = 2 ∧ ¬ wrapCoord (-1) 3 = (-1 : Int) % 3 ∧
    GetTexCoordWrap (-1, -1) (3, 3) = (0, 0) := by decide

/-- C8 (amended): `GetTexCoord` for Wrap computes
`(coord mod 2^32) mod size`.  The result always lies in `[0, size)`; it
equals `coord mod size` for every nonnegative coordinate, and for every
`int32` coordinate (negative ones included) whenever the size divides
`2^32` — in particular for every power-of-two size.  For negative
coordinates and sizes that do not divide `2^32` the result differs from
`coord mod size` (see the counterexample). -/
theorem C8_wrap_amended (texCoord texSize : Int) (hs : 0 < texSize)
    (hs31 : texSize < 2147483648) (hcLo : -2147483648 ≤ texCoord)
    (hcHi : texCoord < 2147483648) :
    (0 ≤ wrapCoord texCoord texSize ∧ wrapCoord texCoord texSize < texSize) ∧
    (0 ≤ texCoord → wrapCoord texCoord texSize = texCoord % texSize) ∧
    (texSize ∣ 4294967296 → wrapCoord texCoord texSize = texCoord % texSize) := by
  have hsmod : texSize % 4294967296 = texSize :=
    Int.emod_eq_of_lt (le_of_lt hs) (by omega)
  have hcnn : 0 ≤ texCoord % 4294967296 := Int.emod_nonneg _ (by norm_num)
  have hsnn : (0 : Int) ≤ texSize := le_of_lt hs
  have hcast : ∀ a b : Int, 0 ≤ a → 0 < b →
      (Int.ofNat (a.toNat % b.toNat)) = a % b := by
    intro a b ha hb
    have : ((a.toNat % b.toNat : Nat) : Int) = (a.toNat : Int) % (b.toNat : Int) :=
      Int.natCast_mod _ _
    rw [Int.ofNat_eq_natCast, this, Int.toNat_of_nonneg ha, Int.toNat_of_nonneg (le_of_lt hb)]
  constructor
  · constructor
    · exact Int.ofNat_nonneg _
    · unfold wrapCoord
      rw [hsmod, hcast _ _ hcnn hs]
      exact Int.emod_lt_of_pos _ hs
  constructor
  · intro hc0
    unfold wrapCoord
    rw [hsmod, hcast _ _ hcnn hs, Int.emod_eq_of_lt hc0 (by omega)]
  · intro hdvd
    unfold wrapCoord
    rw [hsmod, hcast _ _ hcnn hs, Int.emod_emod_of_dvd _ hdvd]

/-- Closed instance of `C8_wrap_amended` at `coord = -7`, `size = 4` (a
power of two, where the wrap is exact even for a negative coordinate). -/
theorem C8_wrap_amended_witness :
    ((0 ≤ wrapCoord (-7) 4 ∧ wrapCoord (-7) 4 < 4) ∧
      (0 ≤ (-7 : Int) → wrapCoord (-7) 4 = (-7 : Int) % 4) ∧
      ((4 : Int) ∣ 4294967296 → wrapCoord (-7) 4 = (-7 : Int) % 4)) ∧
    wrapCoord (-7) 4 = 1 :=
  ⟨C8_wrap_amended (-7) 4 (by decide) (by decide) (by decide) (by decide), by decide⟩

end Omm


namespace Omm

/-- Decidable equality for `Except`, so that concrete pipeline runs can be
settled by `decide`. -/
instance {ε α : Type} [DecidableEq ε] [DecidableEq α] : DecidableEq (Except ε α) := fun a b =>
  match a, b with
  | .error e, .error f =>
    match decEq e f with
    | isTrue h => isTrue (congrArg Except.error h)
    | isFalse h => isFalse fun c => h (Except.error.inj c)
  | .error _, .ok _ => isFalse fun c => Except.noConfusion c
  | .ok _, .error _ => isFalse fun c => Except.noConfusion c
  | .ok x, .ok y =>
    match decEq x y with
    | isTrue h => isTrue (congrArg Except.ok h)
    | isFalse h => isFalse fun c => h (Except.ok.inj c)

theorem getD_map_lt {α β : Type} (f : α → β) (l : List α) (j : Nat) (hj : j < l.length)
    (d : β) (d' : α) : (l.map f).getD j d = f (l.getD j d') := by
  rw [List.getD_eq_getElem?_getD, List.getElem?_map, List.getD_eq_getElem?_getD,
    List.getElem?_eq_getElem hj]
  simp

/-- Bake-input model for the uniform-opaque end-to-end scenario: one
triangle, global format `OC1_4_State`, default flags, zero rejection
threshold. -/
def c1Desc : BakeInputDescModel :=
  { ommFormat := OMMFormat.OC1_4_State, rejectionThreshold := 0, bakeFlags := 0, indexCount := 3 }

/-- The single work item of the uniform-opaque scenario: the triangle
`(0,0),(1,0),(0,1)` at subdivision level 2 over the uniformly opaque 8×8
texture with cutoff 0.5 classifies every one of its 16 micro-triangles as
`Opaque` (every bilinear sample is `1.0 > 0.5` and the level line never
intersects). -/
def c1Item : OmmWorkItem :=
  { subdivisionLevel := 2, vmFormat := OMMFormat.OC1_4_State, primitiveIndices := [0],
    vmDescOffset := kDescOffsetInvalid, vmSpecialIndex := 0,
    vmStates := List.replicate 16 OpacityState.Opaque, mCode := 0, aabbX := 8, aabbY := 8 }

/-- C1 counterexample: baking one triangle whose work item is uniformly
`Opaque` yields `ommIndexBuffer = [-2]`, not `[-1]` as the claim states
(the source computes `-(int)commonState - 1` with `Opaque = 1`);
`ommDescArrayCount = 0` and `ommArrayDataSize = 0` do hold. -/
theorem C1_uniform_opaque_counterexample :
    (BakeImpl (fun _ => 0) (fun _ => 0) (fun _ => 0) (fun _ _ => (0, 0)) c1Desc [c1Item]).map
        (fun r => (r.ommIndexBuffer, r.ommDescArray.length, r.ommArrayData.length)) =
      .ok ([-2], 0, 0) ∧
    ¬ ((Except.ok ([-2], 0, 0) : Except Result (List Int × Nat × Nat)) = .ok ([-1], 0, 0)) := by
  exact ⟨by decide, by decide⟩

/-- When every micro-triangle state of a work item equals its state 0 and
special indices are enabled, `promoteWorkItem` sets
`vmSpecialIndex = -(int)state0 - 1`. -/
theorem promoteWorkItem_of_allEqual (rejectionThreshold : ℚ) (options : Options)
    (w : OmmWorkItem) (hflag : options.disableSpecialIndices = false)
    (hall : ∀ i, i < bird.GetNumMicroTriangles w.subdivisionLevel →
      w.GetState i = w.GetState 0) :
    promoteWorkItem rejectionThreshold options w =
      { w with vmSpecialIndex := -(Int.ofNat (w.GetState 0).toU32) - 1 } := by
  unfold promoteWorkItem
  have hA : ((List.range (bird.GetNumMicroTriangles w.subdivisionLevel)).all
      fun uTriIt => w.GetState uTriIt == w.GetState 0) = true := by
    rw [List.all_eq_true]
    intro i hi
    rw [List.mem_range] at hi
    simp [hall i hi]
  simp only [hA, hflag, Bool.not_true, Bool.false_and, Bool.true_or, Bool.not_false,
    Bool.and_true, Bool.true_and]
  simp

/-- C1 (amended): with `DisableSpecialIndices` clear, a work item whose
micro-triangle states are all `Opaque` is promoted to the special index
`-2` (`-(int)Opaque - 1`; the `FullyOpaque` sentinel under the numbering
consistent with the promotion formula), and the uniform-opaque scenario
accordingly yields `ommIndexBuffer = [-2]` with no descriptors and no
array data (shown in `C1_uniform_opaque_counterexample`'s run). -/
theorem C1_all_opaque_promotes_to_minus_two (rejectionThreshold : ℚ) (options : Options)
    (vmWorkItems : List OmmWorkItem) (j : Nat) (hj : j < vmWorkItems.length)
    (hall : ∀ i, i < bird.GetNumMicroTriangles (vmWorkItems.getD j default).subdivisionLevel →
      (vmWorkItems.getD j default).GetState i = OpacityState.Opaque)
    (hflag : options.disableSpecialIndices = false) :
    ((PromoteToSpecialIndices rejectionThreshold options vmWorkItems).getD j
      default).vmSpecialIndex = -2 := by
  have h0 : (vmWorkItems.getD j default).GetState 0 = OpacityState.Opaque :=
    hall 0 (by unfold bird.GetNumMicroTriangles; exact pow_pos (by norm_num) _)
  unfold PromoteToSpecialIndices
  rw [getD_map_lt _ _ j hj default default,
    promoteWorkItem_of_allEqual rejectionThreshold options _ hflag
      (fun i hi => (hall i hi).trans h0.symm)]
  simp only [h0]
  decide

/-- Closed instance of `C1_all_opaque_promotes_to_minus_two` at the
uniform-opaque scenario's work item. -/
theorem C1_all_opaque_promotes_to_minus_two_witness :
    ((PromoteToSpecialIndices 0 (Options.ofFlags 0) [c1Item]).getD 0 default).vmSpecialIndex =
      -2 :=
  C1_all_opaque_promotes_to_minus_two 0 (Options.ofFlags 0) [c1Item] 0 (by decide)
    (by decide) (by decide)

end Omm

namespace Omm

/-- C3 (amended): the near-duplicate passes never consult
`DisableDuplicateDetection`.  `DeduplicateSimilarLSH` is a no-op exactly
when `EnableNearDuplicateDetection` is clear or the brute-force variant is
selected, `DeduplicateSimilarBruteForce` is a no-op unless both
`EnableNearDuplicateDetection` and its brute-force flag are set, and both
passes' results are independent of every other option — so with
`DisableDuplicateDetection` alone they are no-ops, but with a
near-duplicate flag also set the corresponding pass runs (see
`C3_near_duplicate_runs_despite_disable_flag`). -/
theorem C3_near_duplicate_noop_guards (lshHash : List Nat → Nat) (lshRng : Nat → Nat)
    (lshLK : Nat → Nat → Nat × Nat) (options : Options) (vmWorkItems : List OmmWorkItem)
    (iterations : Nat) :
    (options.enableNearDuplicateDetection = false ∨
        options.enableNearDuplicateDetectionBruteForce = true →
      DeduplicateSimilarLSH lshHash lshRng lshLK options vmWorkItems iterations =
        vmWorkItems) ∧
    (options.enableNearDuplicateDetection = false ∨
        options.enableNearDuplicateDetectionBruteForce = false →
      DeduplicateSimilarBruteForce options vmWorkItems = vmWorkItems) ∧
    (∀ options' : Options,
      options'.enableNearDuplicateDetection = options.enableNearDuplicateDetection →
      options'.enableNearDuplicateDetectionBruteForce =
        options.enableNearDuplicateDetectionBruteForce →
      DeduplicateSimilarLSH lshHash lshRng lshLK options' vmWorkItems iterations =
        DeduplicateSimilarLSH lshHash lshRng lshLK options vmWorkItems iterations ∧
      DeduplicateSimilarBruteForce options' vmWorkItems =
        DeduplicateSimilarBruteForce options vmWorkItems) := by
  refine ⟨?_, ?_, ?_⟩
  · intro h
    unfold DeduplicateSimilarLSH
    rcases h with h | h <;> simp [h]
  · intro h
    unfold DeduplicateSimilarBruteForce
    rcases h with h | h <;> simp [h]
  · intro options' h1 h2
    constructor
    · unfold DeduplicateSimilarLSH
      rw [h1, h2]
    · unfold DeduplicateSimilarBruteForce
      rw [h1, h2]

/-- Closed instance of `C3_near_duplicate_noop_guards` with
`DisableDuplicateDetection` set and both near-duplicate flags clear
(flags = 8): both passes leave a concrete two-item list unchanged. -/
theorem C3_near_duplicate_noop_guards_witness :
    DeduplicateSimilarLSH (fun _ => 0) (fun _ => 0) (fun _ _ => (0, 0)) (Options.ofFlags 8)
      [c1Item, c4Item] 3 = [c1Item, c4Item] ∧
    DeduplicateSimilarBruteForce (Options.ofFlags 8) [c1Item, c4Item] = [c1Item, c4Item] :=
  ⟨(C3_near_duplicate_noop_guards (fun _ => 0) (fun _ => 0) (fun _ _ => (0, 0))
      (Options.ofFlags 8) [c1Item, c4Item] 3).1 (Or.inl (by decide)),
   (C3_near_duplicate_noop_guards (fun _ => 0) (fun _ => 0) (fun _ _ => (0, 0))
      (Options.ofFlags 8) [c1Item, c4Item] 3).2.1 (Or.inl (by decide))⟩

/-- A near-duplicate candidate item for the C3 counterexample. -/
def c3Item (primitiveIndex : Nat) : OmmWorkItem :=
  { subdivisionLevel := 1, vmFormat := OMMFormat.OC1_4_State,
    primitiveIndices := [primitiveIndex], vmDescOffset := kDescOffsetInvalid,
    vmSpecialIndex := 0,
    vmStates := [OpacityState.Opaque, OpacityState.Transparent,
      OpacityState.Opaque, OpacityState.Transparent],
    mCode := 0, aabbX := 0, aabbY := 0 }

/-- C3 counterexample: with `DisableDuplicateDetection`,
`EnableNearDuplicateDetection` and `EnableNearDuplicateDetectionBruteForce`
all set (flags = 8 + 16 + 512 = 536), the brute-force near-duplicate pass
is not a no-op: on two work items with identical states it moves the
second item's primitive list into the first and sets the second item's
special index to the internal disabled sentinel `-1`. -/
theorem C3_near_duplicate_runs_despite_disable_flag :
    (Options.ofFlags 536).disableDuplicateDetection = true ∧
    (DeduplicateSimilarBruteForce (Options.ofFlags 536) [c3Item 0, c3Item 1]).map
        (fun w => (w.primitiveIndices, w.vmSpecialIndex)) = [([0, 1], 0), ([], -1)] ∧
    ¬ ([c3Item 0, c3Item 1].map (fun w => (w.primitiveIndices, w.vmSpecialIndex)) =
        [([0, 1], 0), ([], -1)]) := by
  exact ⟨by decide, by decide, by decide⟩

/-- Bake-input model for the mixed-format histogram scenario: global
format `OC1_4_State`, one triangle, default flags. -/
def c6Desc : BakeInputDescModel :=
  { ommFormat := OMMFormat.OC1_4_State, rejectionThreshold := 0, bakeFlags := 0, indexCount := 3 }

/-- The mixed-format work item: per-primitive format `OC1_2_State` under
global `OC1_4_State`, with mixed states so no special index applies. -/
def c6Item : OmmWorkItem :=
  { subdivisionLevel := 1, vmFormat := OMMFormat.OC1_2_State, primitiveIndices := [0],
    vmDescOffset := kDescOffsetInvalid, vmSpecialIndex := 0,
    vmStates := [OpacityState.Opaque, OpacityState.Transparent,
      OpacityState.Opaque, OpacityState.Transparent],
    mCode := 0, aabbX := 0, aabbY := 0 }

/-- C6: on a successful bake whose single work item has per-primitive
format `OC1_2_State` while the global `ommFormat` is `OC1_4_State`, the
sum of the `count` fields over the `ommArrayHistogram` records is 1 (the
histogram counts every non-special work item of either format) but
`ommDescArrayCount` is 0 (`Serialize` sums the histogram only at the
global format) — the claimed equality fails for mixed per-primitive
formats. -/
theorem C6_histogram_sum_mismatch_on_mixed_formats :
    (BakeImpl (fun _ => 0) (fun _ => 0) (fun _ => 0) (fun _ _ => (0, 0)) c6Desc [c6Item]).map
        (fun r => (((r.ommArrayHistogram.map fun h => h.count).sum), r.ommDescArray.length)) =
      .ok (1, 0) ∧ (1 : Nat) ≠ 0 := by
  exact ⟨by decide, by decide⟩

end Omm

namespace Omm

theorem serializeLoop_error_eq_failure (ommBitCount ommArrayDataSize : Nat) :
    ∀ (keys : List (Nat × Nat)) (vmWorkItems : List OmmWorkItem)
      (vmDescOffset ommArrayDataOffset : Nat) (descs : List OmmDescModel) (data : List Nat)
      (e : Result),
      serializeLoop ommBitCount ommArrayDataSize keys vmWorkItems vmDescOffset
        ommArrayDataOffset descs data = .error e → e = Result.FAILURE := by
  intro keys
  induction keys with
  | nil => intro items dOff aOff descs data e h; simp [serializeLoop] at h
  | cons kv rest ih =>
    intro items dOff aOff descs data e h
    obtain ⟨k, idx⟩ := kv
    rw [serializeLoop] at h
    split at h
    · exact ih _ _ _ _ _ _ h
    · split at h
      · split at h
        · exact (Except.error.inj h).symm
        · exact ih _ _ _ _ _ _ h
      · exact ih _ _ _ _ _ _ h

theorem Serialize_error_eq_failure (desc : BakeInputDescModel)
    (vmWorkItems : List OmmWorkItem) (ah ihist : OMMFormat → Nat → Nat)
    (sortKeys : List (Nat × Nat)) (e : Result)
    (h : Serialize desc vmWorkItems ah ihist sortKeys = .error e) : e = Result.FAILURE := by
  unfold Serialize at h
  split at h
  · exact (Except.error.inj h).symm
  · split at h
    next e' heq =>
      split at heq
      · rw [(Except.error.inj h : e' = e)] at heq
        exact serializeLoop_error_eq_failure _ _ _ _ _ _ _ _ _ heq
      · exact absurd heq (by simp)
    next st heq => exact absurd h (by simp)

theorem validateWorkloadSize_too_big_iff (options : Options) (vmWorkItems : List OmmWorkItem) :
    ValidateWorkloadSize options vmWorkItems = Result.WORKLOAD_TOO_BIG ↔
      (options.enableWorkloadValidation = true ∧
        (vmWorkItems.foldl (fun acc w => acc + w.aabbX * w.aabbY) 0) > 2 ^ 27) := by
  unfold ValidateWorkloadSize
  rw [show kMaxWorkloadSize = 2 ^ 27 from by decide]
  by_cases he : options.enableWorkloadValidation = true
  · by_cases hgt : (vmWorkItems.foldl (fun acc w => acc + w.aabbX * w.aabbY) 0) > 2 ^ 27
    · simp [he, hgt]
    · simp [he, hgt]
  · rw [Bool.not_eq_true] at he
    simp [he]

theorem validateWorkloadSize_cases (options : Options) (vmWorkItems : List OmmWorkItem) :
    ValidateWorkloadSize options vmWorkItems = Result.SUCCESS ∨
      ValidateWorkloadSize options vmWorkItems = Result.WORKLOAD_TOO_BIG := by
  unfold ValidateWorkloadSize
  split
  · exact Or.inl rfl
  · split
    · exact Or.inr rfl
    · exact Or.inl rfl

theorem resampleFlagCheck_cases (options : Options) :
    ResampleFlagCheck options = Result.SUCCESS ∨
      ResampleFlagCheck options = Result.INVALID_ARGUMENT := by
  unfold ResampleFlagCheck
  split
  · exact Or.inr rfl
  · exact Or.inl rfl

/-- C7: the embedded bake returns `WORKLOAD_TOO_BIG` if and only if
`EnableWorkloadValidation` is set and the sum over all work items of
`⌊ΔU·W⌋·⌊ΔV·H⌋` (each item's UV-AABB texel area against the mip-0 texture
size, carried as `aabbX·aabbY`) exceeds `2^27`; with the flag clear the
guard never fires and the pipeline proceeds (any later failure is
`INVALID_ARGUMENT` or `FAILURE`). -/
theorem C7_workload_guard_iff (digest lshHash : List Nat → Nat) (lshRng : Nat → Nat)
    (lshLK : Nat → Nat → Nat × Nat) (desc : BakeInputDescModel)
    (vmWorkItems : List OmmWorkItem) :
    BakeImpl digest lshHash lshRng lshLK desc vmWorkItems =
        .error Result.WORKLOAD_TOO_BIG ↔
      ((Options.ofFlags desc.bakeFlags).enableWorkloadValidation = true ∧
        (vmWorkItems.foldl (fun acc w => acc + w.aabbX * w.aabbY) 0) > 2 ^ 27) := by
  rw [← validateWorkloadSize_too_big_iff (Options.ofFlags desc.bakeFlags) vmWorkItems]
  unfold BakeImpl
  rcases validateWorkloadSize_cases (Options.ofFlags desc.bakeFlags) vmWorkItems with hv | hv <;>
    rw [hv]
  · rw [show (guardResult Result.SUCCESS : Except Result Unit) = .ok () from rfl,
      show ∀ f : Unit → Except Result BakeResultModel, ((Except.ok () : Except Result Unit)
        >>= f) = f () from fun _ => rfl]
    constructor
    · intro h
      exfalso
      rcases resampleFlagCheck_cases (Options.ofFlags desc.bakeFlags) with hr | hr <;>
        rw [hr] at h
      · rw [show (guardResult Result.SUCCESS : Except Result Unit) = .ok () from rfl,
          show ∀ f : Unit → Except Result BakeResultModel, ((Except.ok () : Except Result Unit)
            >>= f) = f () from fun _ => rfl] at h
        unfold bakeSerializeStage at h
        exact absurd (Serialize_error_eq_failure _ _ _ _ _ _ h) (by decide)
      · rw [show (guardResult Result.INVALID_ARGUMENT : Except Result Unit) =
            .error Result.INVALID_ARGUMENT from rfl] at h
        rw [show ∀ f : Unit → Except Result BakeResultModel,
            ((Except.error Result.INVALID_ARGUMENT : Except Result Unit) >>= f) =
              .error Result.INVALID_ARGUMENT from fun _ => rfl] at h
        exact Result.noConfusion (Except.error.inj h)
    · intro hcon
      exact Result.noConfusion hcon
  · rw [show (guardResult Result.WORKLOAD_TOO_BIG : Except Result Unit) =
        .error Result.WORKLOAD_TOO_BIG from rfl]
    rw [show ∀ f : Unit → Except Result BakeResultModel,
        ((Except.error Result.WORKLOAD_TOO_BIG : Except Result Unit) >>= f) =
          .error Result.WORKLOAD_TOO_BIG from fun _ => rfl]
    simp


end Omm

namespace Omm

theorem lor_shiftLeft_eq_add (k : Nat) :
    ∀ (l m : Nat), m < 2 ^ k → ((l <<< k) ||| m) = l * 2 ^ k + m := by
  induction k with
  | zero =>
    intro l m hm
    interval_cases m
    simp [Nat.shiftLeft_eq]
  | succ k ihk =>
    intro l m hm
    have ha : l <<< (k + 1) = 2 * (l <<< k) := by
      rw [Nat.shiftLeft_eq, Nat.shiftLeft_eq, Nat.pow_succ]
      ring
    have hae : (l <<< (k + 1)) % 2 = 0 := by omega
    have hmod : ((l <<< (k + 1)) ||| m) % 2 = m % 2 := by
      rcases Nat.mod_two_eq_zero_or_one m with h2 | h2
      · rcases Nat.mod_two_eq_zero_or_one ((l <<< (k + 1)) ||| m) with h3 | h3
        · omega
        · rw [Nat.or_mod_two_eq_one] at h3
          omega
      · have : ((l <<< (k + 1)) ||| m) % 2 = 1 := Nat.or_mod_two_eq_one.mpr (Or.inr h2)
        omega
    have hdiv : ((l <<< (k + 1)) ||| m) / 2 = (l <<< k) ||| (m / 2) := by
      rw [Nat.or_div_two]
      congr 1
      omega
    have hrec : (l <<< k) ||| (m / 2) = l * 2 ^ k + m / 2 := by
      apply ihk
      rw [Nat.pow_succ] at hm
      omega
    have := Nat.div_add_mod ((l <<< (k + 1)) ||| m) 2
    have := Nat.div_add_mod m 2
    have hmul : l * (2 ^ k * 2) = 2 * (l * 2 ^ k) := by ring
    rw [Nat.pow_succ]
    omega

theorem sortKeyOf_nonspecial {w : OmmWorkItem} (i : Nat)
    (hns : w.vmSpecialIndex = kNoSpecialIndex) (hm : w.mCode < 2 ^ 60) :
    sortKeyOf i w = w.subdivisionLevel * 2 ^ 60 + w.mCode := by
  unfold sortKeyOf
  rw [if_neg (by simp [hns]), lor_shiftLeft_eq_add 60 _ _ hm]

theorem level_ge_of_key_ge {i j : Nat} {w1 w2 : OmmWorkItem}
    (h1 : w1.vmSpecialIndex = kNoSpecialIndex) (h2 : w2.vmSpecialIndex = kNoSpecialIndex)
    (hm1 : w1.mCode < 2 ^ 60) (hm2 : w2.mCode < 2 ^ 60)
    (hk : sortKeyOf j w2 ≤ sortKeyOf i w1) :
    w2.subdivisionLevel ≤ w1.subdivisionLevel := by
  rw [sortKeyOf_nonspecial i h1 hm1, sortKeyOf_nonspecial j h2 hm2] at hk
  by_contra hlt
  push_neg at hlt
  have hstep : (w1.subdivisionLevel + 1) * 2 ^ 60 ≤ w2.subdivisionLevel * 2 ^ 60 :=
    Nat.mul_le_mul_right _ hlt
  have : w1.subdivisionLevel * 2 ^ 60 + w1.mCode < w2.subdivisionLevel * 2 ^ 60 := by
    have : w1.subdivisionLevel * 2 ^ 60 + w1.mCode < (w1.subdivisionLevel + 1) * 2 ^ 60 := by
      rw [Nat.add_mul, Nat.one_mul]
      omega
    omega
  omega

/-- The `(subdivisionLevel, vmFormat)` projections of the non-special work
items, in the order the serializer loop visits them (a processed item's
`vmDescOffset` mutation does not change this list). -/
def nsOf (vmWorkItems : List OmmWorkItem) (keys : List (Nat × Nat)) :
    List (Nat × OMMFormat) :=
  keys.filterMap fun kv =>
    match vmWorkItems[kv.2]? with
    | some w =>
      if w.vmSpecialIndex = kNoSpecialIndex then some (w.subdivisionLevel, w.vmFormat)
      else none
    | none => none

theorem nsOf_nil (vmWorkItems : List OmmWorkItem) : nsOf vmWorkItems [] = [] := rfl

theorem nsOf_cons_none {vmWorkItems : List OmmWorkItem} {kv : Nat × Nat}
    (keys : List (Nat × Nat)) (h : vmWorkItems[kv.2]? = none) :
    nsOf vmWorkItems (kv :: keys) = nsOf vmWorkItems keys := by
  simp [nsOf, List.filterMap_cons, h]

theorem nsOf_cons_special {vmWorkItems : List OmmWorkItem} {kv : Nat × Nat}
    {w : OmmWorkItem} (keys : List (Nat × Nat)) (h : vmWorkItems[kv.2]? = some w)
    (hs : ¬ w.vmSpecialIndex = kNoSpecialIndex) :
    nsOf vmWorkItems (kv :: keys) = nsOf vmWorkItems keys := by
  simp [nsOf, List.filterMap_cons, h, hs]

theorem nsOf_cons_nonspecial {vmWorkItems : List OmmWorkItem} {kv : Nat × Nat}
    {w : OmmWorkItem} (keys : List (Nat × Nat)) (h : vmWorkItems[kv.2]? = some w)
    (hs : w.vmSpecialIndex = kNoSpecialIndex) :
    nsOf vmWorkItems (kv :: keys) =
      (w.subdivisionLevel, w.vmFormat) :: nsOf vmWorkItems keys := by
  simp [nsOf, List.filterMap_cons, h, hs]

theorem nsOf_set_descOffset {vmWorkItems : List OmmWorkItem} {idx : Nat} {vm : OmmWorkItem}
    (dOff : Nat) (h : vmWorkItems[idx]? = some vm) :
    ∀ keys, nsOf (vmWorkItems.set idx { vm with vmDescOffset := dOff }) keys =
      nsOf vmWorkItems keys := by
  intro keys
  induction keys with
  | nil => rfl
  | cons kv rest ih =>
    have hlook : (vmWorkItems.set idx { vm with vmDescOffset := dOff })[kv.2]? =
        if idx = kv.2 then some { vm with vmDescOffset := dOff } else vmWorkItems[kv.2]? := by
      rw [List.getElem?_set]
      have : idx < vmWorkItems.length := by
        rcases List.getElem?_eq_some_iff.mp h with ⟨hlt, _⟩
        exact hlt
      simp [this]
    by_cases he : idx = kv.2
    · rw [if_pos he] at hlook
      have hbase : vmWorkItems[kv.2]? = some vm := he ▸ h
      by_cases hs : vm.vmSpecialIndex = kNoSpecialIndex
      · rw [nsOf_cons_nonspecial rest hlook (by simpa using hs),
          nsOf_cons_nonspecial rest hbase hs, ih]
      · rw [nsOf_cons_special rest hlook (by simpa using hs),
          nsOf_cons_special rest hbase hs, ih]
    · rw [if_neg he] at hlook
      cases hb : vmWorkItems[kv.2]? with
      | none =>
        rw [nsOf_cons_none rest (hlook.trans hb), nsOf_cons_none rest hb, ih]
      | some w =>
        by_cases hs : w.vmSpecialIndex = kNoSpecialIndex
        · rw [nsOf_cons_nonspecial rest (hlook.trans hb) hs,
            nsOf_cons_nonspecial rest hb hs, ih]
        · rw [nsOf_cons_special rest (hlook.trans hb) hs,
            nsOf_cons_special rest hb hs, ih]

end Omm

namespace Omm

theorem micromapSpatialSort_sorted (vmWorkItems : List OmmWorkItem) :
    (MicromapSpatialSort vmWorkItems).Pairwise pairGE :=
  List.sorted_insertionSort pairGE _

theorem micromapSpatialSort_perm (vmWorkItems : List OmmWorkItem) :
    List.Perm (MicromapSpatialSort vmWorkItems) (sortKeysInit vmWorkItems) :=
  List.perm_insertionSort pairGE _

theorem mem_sortKeysInit {vmWorkItems : List OmmWorkItem} {kv : Nat × Nat}
    (h : kv ∈ sortKeysInit vmWorkItems) :
    ∃ w, vmWorkItems[kv.2]? = some w ∧ kv.1 = sortKeyOf kv.2 w := by
  unfold sortKeysInit at h
  rcases List.mem_map.mp h with ⟨i, hi, hkv⟩
  rw [List.mem_range] at hi
  refine ⟨vmWorkItems.getD i default, ?_, ?_⟩
  · rw [← hkv]
    rw [List.getD_eq_getElem?_getD, List.getElem?_eq_getElem hi]
    rfl
  · rw [← hkv]

theorem mem_micromapSpatialSort {vmWorkItems : List OmmWorkItem} {kv : Nat × Nat}
    (h : kv ∈ MicromapSpatialSort vmWorkItems) :
    ∃ w, vmWorkItems[kv.2]? = some w ∧ kv.1 = sortKeyOf kv.2 w :=
  mem_sortKeysInit ((micromapSpatialSort_perm vmWorkItems).mem_iff.mp h)

theorem mem_nsOf {vmWorkItems : List OmmWorkItem} {keys : List (Nat × Nat)}
    {lf : Nat × OMMFormat} (h : lf ∈ nsOf vmWorkItems keys) :
    ∃ kv ∈ keys, ∃ w, vmWorkItems[kv.2]? = some w ∧
      w.vmSpecialIndex = kNoSpecialIndex ∧ lf = (w.subdivisionLevel, w.vmFormat) := by
  unfold nsOf at h
  rcases List.mem_filterMap.mp h with ⟨kv, hkv, hf⟩
  refine ⟨kv, hkv, ?_⟩
  split at hf
  next w heq =>
    split at hf
    next hs => exact ⟨w, heq, hs, (Option.some.inj hf).symm⟩
    next hs => simp at hf
  next heq => simp at hf

/-- Along a key list sorted descending whose keys are consistent with the
work items, the levels of the non-special entries are non-increasing. -/
theorem nsOf_levels_pairwise (vmWorkItems : List OmmWorkItem)
    (hm : ∀ w ∈ vmWorkItems, w.mCode < 2 ^ 60) :
    ∀ (keys : List (Nat × Nat)), keys.Pairwise pairGE →
      (∀ kv ∈ keys, ∃ w, vmWorkItems[kv.2]? = some w ∧ kv.1 = sortKeyOf kv.2 w) →
      ((nsOf vmWorkItems keys).map Prod.fst).Pairwise (· ≥ ·) := by
  intro keys
  induction keys with
  | nil => intro _ _; simp [nsOf_nil]
  | cons kv rest ih =>
    intro hpw hcons
    have hpwtail := (List.pairwise_cons.mp hpw).2
    have hhead := (List.pairwise_cons.mp hpw).1
    have ihr := ih hpwtail (fun kv' h' => hcons kv' (List.mem_cons_of_mem _ h'))
    rcases hcons kv (List.mem_cons_self _ _) with ⟨w, hw, hkey⟩
    by_cases hs : w.vmSpecialIndex = kNoSpecialIndex
    · rw [nsOf_cons_nonspecial rest hw hs, List.map_cons, List.pairwise_cons]
      refine ⟨?_, ihr⟩
      intro l2 hl2
      rcases List.mem_map.mp hl2 with ⟨lf, hlf, hfst⟩
      rcases mem_nsOf hlf with ⟨kv', hkv', w2, hw2, hs2, hlf2⟩
      rcases hcons kv' (List.mem_cons_of_mem _ hkv') with ⟨w2x, hw2x, hkey2⟩
      rw [hw2] at hw2x
      have hw2eq : w2x = w2 := (Option.some.inj hw2x).symm
      have hge : kv'.1 ≤ kv.1 := by
        rcases hhead kv' hkv' with hlt | ⟨heq, _⟩
        · exact le_of_lt hlt
        · exact le_of_eq heq.symm
      rw [hkey, hkey2, hw2eq] at hge
      have := level_ge_of_key_ge hs hs2
        (hm w (List.getElem?_mem hw)) (hm w2 (List.getElem?_mem hw2)) hge
      rw [← hfst, hlf2]
      exact this
    · rw [nsOf_cons_special rest hw hs]
      exact ihr

end Omm

namespace Omm

/-- Descriptors the serializer loop emits for the given non-special
`(level, format)` projections, starting at byte offset `aOff`. -/
def emitDescs (ommBitCount : Nat) : List (Nat × OMMFormat) → Nat → List OmmDescModel
  | [], _ => []
  | lf :: rest, aOff =>
    { subdivisionLevel := lf.1, format := lf.2.toU16, offset := aOff } ::
      emitDescs ommBitCount rest (aOff + arrayByteAdvance ommBitCount lf.1)

/-- The serializer loop's cursor check succeeds at every processed
non-special item: the byte offset is below the pre-computed array size
when each item starts. -/
def advOk (ommBitCount ommArrayDataSize : Nat) : List (Nat × OMMFormat) → Nat → Prop
  | [], _ => True
  | lf :: rest, aOff =>
    aOff < ommArrayDataSize ∧
      advOk ommBitCount ommArrayDataSize rest (aOff + arrayByteAdvance ommBitCount lf.1)

theorem emitDescs_length (ommBitCount : Nat) :
    ∀ (ns : List (Nat × OMMFormat)) (aOff : Nat),
      (emitDescs ommBitCount ns aOff).length = ns.length := by
  intro ns
  induction ns with
  | nil => intro aOff; rfl
  | cons lf rest ih => intro aOff; simp [emitDescs, ih]

theorem emitDescs_map_level (ommBitCount : Nat) :
    ∀ (ns : List (Nat × OMMFormat)) (aOff : Nat),
      (emitDescs ommBitCount ns aOff).map (fun d => d.subdivisionLevel) = ns.map Prod.fst := by
  intro ns
  induction ns with
  | nil => intro aOff; rfl
  | cons lf rest ih => intro aOff; simp [emitDescs, ih]

theorem serializeLoop_ok_descs (ommBitCount ommArrayDataSize : Nat) :
    ∀ (keys : List (Nat × Nat)) (vmWorkItems : List OmmWorkItem)
      (vmDescOffset ommArrayDataOffset : Nat) (descs : List OmmDescModel) (data : List Nat)
      (res : List OmmWorkItem × List OmmDescModel × List Nat),
      serializeLoop ommBitCount ommArrayDataSize keys vmWorkItems vmDescOffset
        ommArrayDataOffset descs data = .ok res →
      res.2.1 = descs ++
          emitDescs ommBitCount (nsOf vmWorkItems keys) ommArrayDataOffset ∧
        advOk ommBitCount ommArrayDataSize (nsOf vmWorkItems keys) ommArrayDataOffset := by
  intro keys
  induction keys with
  | nil =>
    intro items dOff aOff descs data res h
    rw [serializeLoop] at h
    rw [nsOf_nil]
    obtain rfl : res = (items, descs, data) := (Except.ok.inj h).symm
    exact ⟨by simp [emitDescs], trivial⟩
  | cons kv rest ih =>
    intro items dOff aOff descs data res h
    obtain ⟨k, idx⟩ := kv
    rw [serializeLoop] at h
    split at h
    next heq =>
      rw [nsOf_cons_none rest heq]
      exact ih _ _ _ _ _ _ h
    next vm heq =>
      split at h
      next hs =>
        split at h
        · exact absurd h (by simp)
        next hd =>
          rcases ih _ _ _ _ _ _ h with ⟨hdescs, hadv⟩
          rw [nsOf_set_descOffset dOff heq] at hdescs hadv
          rw [nsOf_cons_nonspecial rest heq hs]
          constructor
          · rw [hdescs, emitDescs]
            simp [arrayByteAdvance, bird.GetNumMicroTriangles]
          · exact ⟨by omega, by
              simpa [arrayByteAdvance, bird.GetNumMicroTriangles] using hadv⟩
      next hs =>
        rw [nsOf_cons_special rest heq hs]
        exact ih _ _ _ _ _ _ h

theorem serializeLoop_ok_items (ommBitCount ommArrayDataSize : Nat) :
    ∀ (keys : List (Nat × Nat)) (vmWorkItems : List OmmWorkItem)
      (vmDescOffset ommArrayDataOffset : Nat) (descs : List OmmDescModel) (data : List Nat)
      (res : List OmmWorkItem × List OmmDescModel × List Nat),
      serializeLoop ommBitCount ommArrayDataSize keys vmWorkItems vmDescOffset
        ommArrayDataOffset descs data = .ok res →
      res.1.length = vmWorkItems.length ∧
        ∀ (j : Nat) (w' : OmmWorkItem), res.1[j]? = some w' →
          ∃ w : OmmWorkItem, vmWorkItems[j]? = some w ∧
          w'.vmSpecialIndex = w.vmSpecialIndex ∧
          w'.primitiveIndices = w.primitiveIndices ∧
          (w'.vmDescOffset = w.vmDescOffset ∨
            (vmDescOffset ≤ w'.vmDescOffset ∧
              w'.vmDescOffset < vmDescOffset + (nsOf vmWorkItems keys).length)) := by
  intro keys
  induction keys with
  | nil =>
    intro items dOff aOff descs data res h
    rw [serializeLoop] at h
    obtain rfl : res = (items, descs, data) := (Except.ok.inj h).symm
    exact ⟨rfl, fun j w' hj => ⟨w', hj, rfl, rfl, Or.inl rfl⟩⟩
  | cons kv rest ih =>
    intro items dOff aOff descs data res h
    obtain ⟨k, idx⟩ := kv
    rw [serializeLoop] at h
    split at h
    next heq =>
      rcases ih _ _ _ _ _ _ h with ⟨hlen, hitems⟩
      rw [nsOf_cons_none rest heq]
      exact ⟨hlen, hitems⟩
    next vm heq =>
      split at h
      next hs =>
        split at h
        · exact absurd h (by simp)
        next hd =>
          rcases ih _ _ _ _ _ _ h with ⟨hlen, hitems⟩
          rw [nsOf_set_descOffset dOff heq] at hitems
          rw [List.length_set] at hlen
          rw [nsOf_cons_nonspecial rest heq hs]
          refine ⟨hlen, ?_⟩
          intro j w' hj
          rcases hitems j w' hj with ⟨w1, hw1, hsp, hpr, hoff⟩
          have hidxlt : idx < items.length :=
            (List.getElem?_eq_some_iff.mp heq).1
          by_cases hji : idx = j
          · subst hji
            rw [List.getElem?_set_self hidxlt] at hw1
            have hw1v : w1 = { vm with vmDescOffset := dOff } := (Option.some.inj hw1).symm
            refine ⟨vm, heq, ?_, ?_, Or.inr ?_⟩
            · rw [hsp, hw1v]
            · rw [hpr, hw1v]
            · rcases hoff with hoff | hoff
              · rw [hoff, hw1v]
                simp only [List.length_cons]
                omega
              · simp only [List.length_cons]
                omega
          · rw [List.getElem?_set_ne hji] at hw1
            refine ⟨w1, hw1, hsp, hpr, ?_⟩
            rcases hoff with hoff | hoff
            · exact Or.inl hoff
            · refine Or.inr ⟨by omega, ?_⟩
              simp only [List.length_cons]
              omega
      next hs =>
        rcases ih _ _ _ _ _ _ h with ⟨hlen, hitems⟩
        rw [nsOf_cons_special rest heq hs]
        exact ⟨hlen, hitems⟩

end Omm

namespace Omm

/-- Projection used by the serializer analysis: a non-special work item's
`(level, format)` pair. -/
def workItemProj (w : OmmWorkItem) : Option (Nat × OMMFormat) :=
  if w.vmSpecialIndex = kNoSpecialIndex then some (w.subdivisionLevel, w.vmFormat) else none

theorem filterMap_index_range' (F : OmmWorkItem → Option (Nat × OMMFormat)) :
    ∀ (m s : Nat) (vmWorkItems : List OmmWorkItem), s + m = vmWorkItems.length →
      ((List.range' s m).filterMap fun i =>
        match vmWorkItems[i]? with
        | some w => F w
        | none => none) = (vmWorkItems.drop s).filterMap F := by
  intro m
  induction m with
  | zero =>
    intro s items hs
    rw [List.drop_eq_nil_of_le (by omega)]
    rfl
  | succ m ihm =>
    intro s items hs
    have hslt : s < items.length := by omega
    rw [List.range'_succ, List.filterMap_cons, List.drop_eq_getElem_cons hslt,
      List.filterMap_cons, List.getElem?_eq_getElem hslt]
    have ih := ihm (s + 1) items (by omega)
    rw [show (match some items[s] with | some w => F w | none => none) = F items[s] from rfl]
    cases hF : F items[s] with
    | none => exact ih
    | some lf => exact congrArg (lf :: ·) ih

theorem nsOf_sortKeysInit (vmWorkItems : List OmmWorkItem) :
    nsOf vmWorkItems (sortKeysInit vmWorkItems) = vmWorkItems.filterMap workItemProj := by
  unfold nsOf sortKeysInit
  rw [List.filterMap_map]
  have := filterMap_index_range' workItemProj vmWorkItems.length 0 vmWorkItems (by omega)
  rw [List.range_eq_range']
  rw [show vmWorkItems.drop 0 = vmWorkItems from List.drop_zero _] at this
  rw [← this]
  rfl

theorem nsOf_micromapSpatialSort_perm (vmWorkItems : List OmmWorkItem) :
    List.Perm (nsOf vmWorkItems (MicromapSpatialSort vmWorkItems))
      (vmWorkItems.filterMap workItemProj) := by
  rw [← nsOf_sortKeysInit]
  exact List.Perm.filterMap _ (micromapSpatialSort_perm vmWorkItems)

/-- The per-item increment of the array usage histogram. -/
def histDelta (w : OmmWorkItem) (f : OMMFormat) (l : Nat) : Nat :=
  if w.vmSpecialIndex = kNoSpecialIndex then
    (if f = w.vmFormat ∧ l = w.subdivisionLevel then 1 else 0)
  else 0

theorem createUsageHistograms_fold (f : OMMFormat) (l : Nat) :
    ∀ (vmWorkItems : List OmmWorkItem)
      (a : (OMMFormat → Nat → Nat) × (OMMFormat → Nat → Nat)),
      (vmWorkItems.foldl
        (fun (st : (OMMFormat → Nat → Nat) × (OMMFormat → Nat → Nat)) workItem =>
          if workItem.vmSpecialIndex = kNoSpecialIndex then
            ((fun f l => st.1 f l +
                if f = workItem.vmFormat ∧ l = workItem.subdivisionLevel then 1 else 0),
             (fun f l => st.2 f l +
                if f = workItem.vmFormat ∧ l = workItem.subdivisionLevel then
                  workItem.primitiveIndices.length
                else 0))
          else st) a).1 f l =
        a.1 f l + ((vmWorkItems.map fun w => histDelta w f l).sum) := by
  intro items
  induction items with
  | nil => intro a; simp
  | cons w t ih =>
    intro a
    rw [List.foldl_cons, ih, List.map_cons, List.sum_cons]
    unfold histDelta
    by_cases hs : w.vmSpecialIndex = kNoSpecialIndex
    · rw [if_pos hs, if_pos hs]
      simp only []
      omega
    · rw [if_neg hs, if_neg hs]
      omega

theorem createUsageHistograms_arr (vmWorkItems : List OmmWorkItem) (f : OMMFormat) (l : Nat) :
    (CreateUsageHistograms vmWorkItems).1 f l =
      ((vmWorkItems.map fun w => histDelta w f l).sum) := by
  unfold CreateUsageHistograms
  rw [createUsageHistograms_fold f l vmWorkItems _]
  simp

theorem sum_map_range_add (f g : Nat → Nat) :
    ∀ n : Nat, ((List.range n).map fun l => f l + g l).sum =
      ((List.range n).map f).sum + ((List.range n).map g).sum := by
  intro n
  induction n with
  | zero => simp
  | succ n ihn =>
    rw [List.range_succ, List.map_append, List.map_append, List.map_append,
      List.sum_append, List.sum_append, List.sum_append, ihn]
    simp
    omega

theorem sum_range_if_eq (lvl : Nat) (c : Nat → Nat) :
    ∀ n : Nat, ((List.range n).map fun l => if l = lvl then c l else 0).sum =
      if lvl < n then c lvl else 0 := by
  intro n
  induction n with
  | zero => simp
  | succ n ihn =>
    rw [List.range_succ, List.map_append, List.sum_append, ihn]
    by_cases h : n = lvl
    · subst h
      simp
    · simp only [List.map_cons, List.map_nil, List.sum_cons, List.sum_nil, if_neg h]
      by_cases h2 : lvl < n
      · rw [if_pos h2, if_pos (by omega)]
        omega
      · rw [if_neg h2, if_neg (by omega)]
        omega

end Omm

namespace Omm

/-- Invariant of the work items entering the output stages: bounded
subdivision level, the Morton-code bound asserted in the source, the
constructor's descriptor offset, and a special index that is either
"none" or one of the four sentinels. -/
def ItemInv (w : OmmWorkItem) : Prop :=
  w.subdivisionLevel ≤ kMaxSubdivLevel ∧ w.mCode < 2 ^ 60 ∧
    w.vmDescOffset = kDescOffsetInvalid ∧
    (w.vmSpecialIndex = kNoSpecialIndex ∨
      (-4 ≤ w.vmSpecialIndex ∧ w.vmSpecialIndex ≤ -1))

/-- List-level invariant: fixed length and `ItemInv` for every item. -/
def ItemsInv (n : Nat) (vmWorkItems : List OmmWorkItem) : Prop :=
  vmWorkItems.length = n ∧ ∀ w ∈ vmWorkItems, ItemInv w

theorem foldl_inv {α β : Type} (Q : β → Prop) (f : β → α → β)
    (hf : ∀ b a, Q b → Q (f b a)) :
    ∀ (l : List α) (b : β), Q b → Q (l.foldl f b) := by
  intro l
  induction l with
  | nil => intro b hb; exact hb
  | cons a t ih => intro b hb; exact ih _ (hf b a hb)

theorem itemsInv_set {n : Nat} {l : List OmmWorkItem} (h : ItemsInv n l)
    {v : OmmWorkItem} (hv : ItemInv v) (i : Nat) : ItemsInv n (l.set i v) := by
  refine ⟨by rw [List.length_set]; exact h.1, ?_⟩
  intro w hw
  rcases List.mem_or_eq_of_mem_set hw with hmem | rfl
  · exact h.2 w hmem
  · exact hv

theorem neg_toU32_range (s : OpacityState) :
    -4 ≤ -(Int.ofNat s.toU32) - 1 ∧ -(Int.ofNat s.toU32) - 1 ≤ -1 := by
  cases s <;> decide

theorem promoteWorkItem_inv (rt : ℚ) (o : Options) {w : OmmWorkItem} (h : ItemInv w) :
    ItemInv (promoteWorkItem rt o w) := by
  unfold promoteWorkItem
  dsimp only
  split
  next => exact ⟨h.1, h.2.1, h.2.2.1, Or.inr (neg_toU32_range _)⟩
  next => exact h

theorem promoteToSpecialIndices_inv (rt : ℚ) (o : Options) {n : Nat}
    {items : List OmmWorkItem} (h : ItemsInv n items) :
    ItemsInv n (PromoteToSpecialIndices rt o items) := by
  refine ⟨by rw [PromoteToSpecialIndices, List.length_map]; exact h.1, ?_⟩
  intro w hw
  rcases List.mem_map.mp hw with ⟨w0, hw0, rfl⟩
  exact promoteWorkItem_inv rt o (h.2 w0 hw0)

theorem mergeWorkItems_inv {t f : OmmWorkItem} (ht : ItemInv t) (hf : ItemInv f) :
    ItemInv (MergeWorkItems t f).1 ∧ ItemInv (MergeWorkItems t f).2 :=
  ⟨⟨ht.1, ht.2.1, ht.2.2.1, ht.2.2.2⟩,
   ⟨hf.1, hf.2.1, hf.2.2.1,
    Or.inr (show (-4 : Int) ≤ -1 ∧ (-1 : Int) ≤ -1 from by decide)⟩⟩

theorem mergeAt_inv {n : Nat} {l : List OmmWorkItem} (h : ItemsInv n l)
    (toIdx fromIdx : Nat) : ItemsInv n (mergeAt l toIdx fromIdx) := by
  unfold mergeAt
  split
  next toItem fromItem heqt heqf =>
    have ht := h.2 toItem (List.getElem?_mem heqt)
    have hf := h.2 fromItem (List.getElem?_mem heqf)
    exact itemsInv_set (itemsInv_set h (mergeWorkItems_inv ht hf).1 toIdx)
      (mergeWorkItems_inv ht hf).2 fromIdx
  next => exact h

theorem deduplicateExact_inv (digest : List Nat → Nat) (options : Options) {n : Nat}
    {items : List OmmWorkItem} (h : ItemsInv n items) :
    ItemsInv n (DeduplicateExact digest options items) := by
  unfold DeduplicateExact
  split
  next => exact h
  next =>
    refine foldl_inv
      (fun (st : List OmmWorkItem × List (Nat × Nat)) => ItemsInv n st.1) _ ?_ _ _ h
    intro st i hQ
    dsimp only
    split
    next => exact hQ
    next workItem heq =>
      split
      next => exact hQ
      next j hlook =>
        split
        next => exact hQ
        next existing heq2 =>
          have h1 := hQ.2 existing (List.getElem?_mem heq2)
          have h2 := hQ.2 workItem (List.getElem?_mem heq)
          exact itemsInv_set
            (itemsInv_set hQ
              (show ItemInv { existing with
                  primitiveIndices := existing.primitiveIndices ++ workItem.primitiveIndices }
                from ⟨h1.1, h1.2.1, h1.2.2.1, h1.2.2.2⟩) j)
            (show ItemInv { workItem with primitiveIndices := [], vmSpecialIndex := -1 }
              from ⟨h2.1, h2.2.1, h2.2.2.1,
                Or.inr (show (-4 : Int) ≤ -1 ∧ (-1 : Int) ≤ -1 from by decide)⟩) i

theorem lshMergePass_inv (tables : List LshHashTable) (batch : List Nat) (l d : Nat)
    {n : Nat} {items : List OmmWorkItem} (h : ItemsInv n items) :
    ItemsInv n (lshMergePass tables batch l d items) := by
  unfold lshMergePass
  refine foldl_inv (fun (cur : List OmmWorkItem) => ItemsInv n cur) _ ?_ _ _ h
  intro cur idx hQ
  dsimp only
  split
  next => exact hQ
  next workItem heq =>
    split
    next => exact hQ
    next =>
      split
      next => exact mergeAt_inv hQ _ _
      next => exact hQ

theorem lshLevelPass_inv (lshHash : List Nat → Nat) (lshRng : Nat → Nat)
    (lshLK : Nat → Nat → Nat × Nat) (subdivisionLevel : Nat) {n : Nat}
    {st : List OmmWorkItem × Nat} (h : ItemsInv n st.1) :
    ItemsInv n (lshLevelPass lshHash lshRng lshLK subdivisionLevel st).1 := by
  unfold lshLevelPass
  dsimp only
  split
  next => exact h
  next =>
    split
    next => exact h
    next =>
      split
      next => exact h
      next => exact lshMergePass_inv _ _ _ _ h

theorem deduplicateSimilarLSH_inv (lshHash : List Nat → Nat) (lshRng : Nat → Nat)
    (lshLK : Nat → Nat → Nat × Nat) (options : Options) (iterations : Nat) {n : Nat}
    {items : List OmmWorkItem} (h : ItemsInv n items) :
    ItemsInv n (DeduplicateSimilarLSH lshHash lshRng lshLK options items iterations) := by
  unfold DeduplicateSimilarLSH
  split
  next => exact h
  next =>
    refine foldl_inv
      (fun (st : List OmmWorkItem × Nat) => ItemsInv n st.1) _ ?_ _ _ h
    intro st _ hQ
    refine foldl_inv (fun (st2 : List OmmWorkItem × Nat) => ItemsInv n st2.1) _ ?_ _ _ hQ
    intro st2 lvl hQ2
    exact lshLevelPass_inv lshHash lshRng lshLK lvl hQ2

theorem deduplicateSimilarBruteForce_inv (options : Options) {n : Nat}
    {items : List OmmWorkItem} (h : ItemsInv n items) :
    ItemsInv n (DeduplicateSimilarBruteForce options items) := by
  unfold DeduplicateSimilarBruteForce
  split
  next => exact h
  next =>
    split
    next => exact h
    next =>
      refine foldl_inv
        (fun (st : List OmmWorkItem × List Nat) => ItemsInv n st.1) _ ?_ _ _ h
      intro st itA hQ
      dsimp only
      split
      next => exact hQ
      next workItemA heq =>
        split
        next => exact hQ
        next =>
          split
          next => exact hQ
          next =>
            split
            next => exact mergeAt_inv hQ _ _
            next => exact hQ

theorem pipelineWorkItems_inv (digest lshHash : List Nat → Nat) (lshRng : Nat → Nat)
    (lshLK : Nat → Nat → Nat × Nat) (desc : BakeInputDescModel) (options : Options)
    {n : Nat} {items : List OmmWorkItem} (h : ItemsInv n items) :
    ItemsInv n (pipelineWorkItems digest lshHash lshRng lshLK desc options items) :=
  promoteToSpecialIndices_inv _ _
    (deduplicateSimilarBruteForce_inv _
      (deduplicateSimilarLSH_inv _ _ _ _ _
        (deduplicateExact_inv _ _
          (promoteToSpecialIndices_inv _ _ h))))

end Omm

namespace Omm

theorem histDelta_eq (w : OmmWorkItem) (f : OMMFormat) (l : Nat) :
    histDelta w f l = if l = w.subdivisionLevel then
      (if w.vmSpecialIndex = kNoSpecialIndex ∧ f = w.vmFormat then 1 else 0) else 0 := by
  unfold histDelta
  by_cases h1 : w.vmSpecialIndex = kNoSpecialIndex <;>
    by_cases h2 : f = w.vmFormat <;> by_cases h3 : l = w.subdivisionLevel <;>
      simp [h1, h2, h3]

theorem sum_map_range_mul_split (df sf c : Nat → Nat) :
    ∀ n : Nat, ((List.range n).map fun l => (df l + sf l) * c l).sum =
      ((List.range n).map fun l => df l * c l).sum +
        ((List.range n).map fun l => sf l * c l).sum := by
  intro n
  induction n with
  | zero => simp
  | succ n ihn =>
    rw [List.range_succ, List.map_append, List.map_append, List.map_append,
      List.sum_append, List.sum_append, List.sum_append, ihn]
    simp only [List.map_cons, List.map_nil, List.sum_cons, List.sum_nil, Nat.add_mul]
    omega

/-- The histogram-weighted level sums of `Serialize` as sums over the
non-special items' `(level, format)` projections. -/
theorem histSum (fmt : OMMFormat) (c : Nat → Nat) :
    ∀ (vmWorkItems : List OmmWorkItem),
      (∀ w ∈ vmWorkItems, w.subdivisionLevel ≤ kMaxSubdivLevel) →
      ((List.range kMaxNumSubdivLevels).map fun l =>
        (CreateUsageHistograms vmWorkItems).1 fmt l * c l).sum =
      (((vmWorkItems.filterMap workItemProj).filter fun lf =>
        decide (lf.2 = fmt)).map fun lf => c lf.1).sum := by
  intro items
  induction items with
  | nil =>
    intro _
    simp [createUsageHistograms_arr]
  | cons w t ih =>
    intro hl
    have hw := hl w (List.mem_cons_self _ _)
    have iht := ih fun w' hw' => hl w' (List.mem_cons_of_mem _ hw')
    simp only [createUsageHistograms_arr, List.map_cons, List.sum_cons] at iht ⊢
    rw [sum_map_range_mul_split (fun l => histDelta w fmt l)
      (fun l => (t.map fun w' => histDelta w' fmt l).sum) c kMaxNumSubdivLevels, iht]
    have hfirst : ((List.range kMaxNumSubdivLevels).map fun l => histDelta w fmt l * c l).sum
        = (if w.vmSpecialIndex = kNoSpecialIndex ∧ fmt = w.vmFormat then 1 else 0) *
            c w.subdivisionLevel := by
      have : ∀ l : Nat, histDelta w fmt l * c l =
          if l = w.subdivisionLevel then
            (if w.vmSpecialIndex = kNoSpecialIndex ∧ fmt = w.vmFormat then 1 else 0) * c l
          else 0 := by
        intro l
        rw [histDelta_eq]
        by_cases h3 : l = w.subdivisionLevel <;> simp [h3]
      simp only [this]
      rw [sum_range_if_eq w.subdivisionLevel
        (fun l => (if w.vmSpecialIndex = kNoSpecialIndex ∧ fmt = w.vmFormat then 1 else 0) * c l)
        kMaxNumSubdivLevels]
      rw [if_pos (show w.subdivisionLevel < kMaxNumSubdivLevels by
        unfold kMaxNumSubdivLevels; unfold kMaxSubdivLevel at hw; omega)]
    rw [hfirst, List.filterMap_cons]
    unfold workItemProj
    by_cases hs : w.vmSpecialIndex = kNoSpecialIndex
    · by_cases hf : fmt = w.vmFormat
      · simp [hs, hf, List.filter_cons]
      · have hf2 : ¬(w.vmFormat = fmt) := fun h => hf h.symm
        simp [hs, hf, hf2, List.filter_cons]
    · simp [hs]

theorem sum_map_one {α : Type} : ∀ l : List α, (l.map fun _ => 1).sum = l.length := by
  intro l
  induction l with
  | nil => rfl
  | cons a t ih => simp [ih]; omega

/-- `ommDescArrayCount` equals the number of non-special work items whose
format is the global format. -/
theorem ommDescArrayCountOf_eq (vmWorkItems : List OmmWorkItem) (fmt : OMMFormat)
    (hl : ∀ w ∈ vmWorkItems, w.subdivisionLevel ≤ kMaxSubdivLevel) :
    ommDescArrayCountOf (CreateUsageHistograms vmWorkItems).1 fmt =
      ((vmWorkItems.filterMap workItemProj).filter fun lf => decide (lf.2 = fmt)).length := by
  have h := histSum fmt (fun _ => 1) vmWorkItems hl
  rw [sum_map_one] at h
  unfold ommDescArrayCountOf
  rw [← h]
  simp

/-- `ommArrayDataSize` equals the summed byte advances of the non-special
work items whose format is the global format. -/
theorem ommArrayDataSizeOf_eq (vmWorkItems : List OmmWorkItem) (fmt : OMMFormat)
    (hl : ∀ w ∈ vmWorkItems, w.subdivisionLevel ≤ kMaxSubdivLevel) :
    ommArrayDataSizeOf (CreateUsageHistograms vmWorkItems).1 fmt =
      (((vmWorkItems.filterMap workItemProj).filter fun lf => decide (lf.2 = fmt)).map
        fun lf => arrayByteAdvance (bird.GetBitCount fmt) lf.1).sum := by
  exact histSum fmt (arrayByteAdvance (bird.GetBitCount fmt)) vmWorkItems hl

end Omm

namespace Omm

/-- After a successful serializer loop, every non-special work item whose
index occurs in the key list (or whose offset was already below the
running descriptor counter) ends with a descriptor offset below the
counter plus the number of emitted descriptors. -/
theorem serializeLoop_ok_descOffset_lt (ommBitCount ommArrayDataSize : Nat) :
    ∀ (keys : List (Nat × Nat)) (vmWorkItems : List OmmWorkItem)
      (vmDescOffset ommArrayDataOffset : Nat) (descs : List OmmDescModel) (data : List Nat)
      (res : List OmmWorkItem × List OmmDescModel × List Nat),
      serializeLoop ommBitCount ommArrayDataSize keys vmWorkItems vmDescOffset
        ommArrayDataOffset descs data = .ok res →
      (∀ (j : Nat) (w : OmmWorkItem), vmWorkItems[j]? = some w →
        w.vmSpecialIndex = kNoSpecialIndex →
        w.vmDescOffset < vmDescOffset ∨ ∃ kv ∈ keys, kv.2 = j) →
      ∀ (j : Nat) (w' : OmmWorkItem), res.1[j]? = some w' →
        w'.vmSpecialIndex = kNoSpecialIndex →
        w'.vmDescOffset < vmDescOffset + (nsOf vmWorkItems keys).length := by
  intro keys
  induction keys with
  | nil =>
    intro items dOff aOff descs data res h hidx j w' hj hjs
    rw [serializeLoop] at h
    obtain rfl : res = (items, descs, data) := (Except.ok.inj h).symm
    rw [nsOf_nil]
    rcases hidx j w' hj hjs with hlt | ⟨kv, hkv, _⟩
    · simpa using hlt
    · exact absurd hkv (List.not_mem_nil kv)
  | cons kv rest ih =>
    intro items dOff aOff descs data res h hidx
    obtain ⟨k, idx⟩ := kv
    rw [serializeLoop] at h
    split at h
    next heq =>
      rw [nsOf_cons_none rest heq]
      refine ih _ _ _ _ _ _ h ?_
      intro j w hj hjs
      rcases hidx j w hj hjs with hlt | ⟨kv2, hkv2, hkv2j⟩
      · exact Or.inl hlt
      · rcases List.mem_cons.mp hkv2 with rfl | hmem
        · have hj2 : idx = j := hkv2j
          rw [hj2] at heq
          rw [heq] at hj
          exact absurd hj (by simp)
        · exact Or.inr ⟨kv2, hmem, hkv2j⟩
    next vm heq =>
      split at h
      next hs =>
        split at h
        · exact absurd h (by simp)
        next hd =>
          intro j w' hj hjs
          have hmain := ih _ _ _ _ _ _ h ?_ j w' hj hjs
          · rw [nsOf_set_descOffset dOff heq] at hmain
            rw [nsOf_cons_nonspecial rest heq hs, List.length_cons]
            omega
          · intro j2 w2 hj2 hjs2
            by_cases hji : idx = j2
            · subst hji
              have hidxlt : idx < items.length := (List.getElem?_eq_some_iff.mp heq).1
              rw [List.getElem?_set_self hidxlt] at hj2
              have hval : w2 = { vm with vmDescOffset := dOff } := (Option.some.inj hj2).symm
              rw [hval]
              exact Or.inl (show dOff < dOff + 1 by omega)
            · rw [List.getElem?_set_ne hji] at hj2
              rcases hidx j2 w2 hj2 hjs2 with hlt | ⟨kv2, hkv2, hkv2j⟩
              · exact Or.inl (by omega)
              · rcases List.mem_cons.mp hkv2 with rfl | hmem
                · exact absurd hkv2j hji
                · exact Or.inr ⟨kv2, hmem, hkv2j⟩
      next hs =>
        intro j w' hj hjs
        have hmain := ih _ _ _ _ _ _ h ?_ j w' hj hjs
        · rw [nsOf_cons_special rest heq hs]
          exact hmain
        · intro j2 w2 hj2 hjs2
          rcases hidx j2 w2 hj2 hjs2 with hlt | ⟨kv2, hkv2, hkv2j⟩
          · exact Or.inl hlt
          · rcases List.mem_cons.mp hkv2 with rfl | hmem
            · have hj3 : idx = j2 := hkv2j
              rw [hj3] at heq
              rw [heq] at hj2
              have hval : w2 = vm := (Option.some.inj hj2).symm
              rw [hval] at hjs2
              exact absurd hjs2 hs
            · exact Or.inr ⟨kv2, hmem, hkv2j⟩

/-- The cursor check of the serializer loop gives strict prefix-sum bounds:
every proper prefix of the emitted byte advances stays below the
pre-computed array size. -/
theorem advOk_prefix (ommBitCount ommArrayDataSize : Nat) :
    ∀ (ns : List (Nat × OMMFormat)) (aOff : Nat),
      advOk ommBitCount ommArrayDataSize ns aOff →
      ∀ t : Nat, t < ns.length →
        aOff + (((ns.take t).map fun lf => arrayByteAdvance ommBitCount lf.1).sum) <
          ommArrayDataSize := by
  intro ns
  induction ns with
  | nil => intro aOff _ t ht; simp at ht
  | cons lf rest ih =>
    intro aOff hadv t ht
    rw [advOk] at hadv
    rcases hadv with ⟨h1, h2⟩
    cases t with
    | zero => simpa using h1
    | succ t2 =>
      simp only [List.take_succ_cons, List.map_cons, List.sum_cons]
      have := ih _ h2 t2 (by simpa using ht)
      omega

theorem arrayByteAdvance_mono (ommBitCount : Nat) {l1 l2 : Nat} (h : l1 ≤ l2) :
    arrayByteAdvance ommBitCount l1 ≤ arrayByteAdvance ommBitCount l2 := by
  unfold arrayByteAdvance bird.GetNumMicroTriangles
  have h1 : 4 ^ l1 ≤ 4 ^ l2 := Nat.pow_le_pow_right (by omega) h
  have h2 : 4 ^ l1 * ommBitCount ≤ 4 ^ l2 * ommBitCount := Nat.mul_le_mul_right _ h1
  have h3 : (4 ^ l1 * ommBitCount) >>> 3 ≤ (4 ^ l2 * ommBitCount) >>> 3 := by
    simp only [Nat.shiftRight_eq_div_pow]
    exact Nat.div_le_div_right h2
  omega

theorem take_succ_sum_le (a : Nat) :
    ∀ (l : List Nat), (∀ x ∈ l, x ≤ a) → ∀ m : Nat,
      (l.take (m + 1)).sum ≤ (l.take m).sum + a := by
  intro l
  induction l with
  | nil => intro _ m; simp
  | cons b t ih =>
    intro hb m
    cases m with
    | zero =>
      simp only [List.take_succ_cons, List.take_zero, List.sum_cons, List.sum_nil]
      have := hb b (List.mem_cons_self _ _)
      omega
    | succ m2 =>
      simp only [List.take_succ_cons, List.sum_cons]
      have := ih (fun x hx => hb x (List.mem_cons_of_mem _ hx)) m2
      omega

/-- Top-`k` bound: in a list sorted non-increasingly, any sublist of at
most `k` elements sums to at most the first `k` elements. -/
theorem sublist_sum_le_take :
    ∀ {s l : List Nat}, s.Sublist l → l.Pairwise (· ≥ ·) →
      ∀ k : Nat, s.length ≤ k → s.sum ≤ (l.take k).sum := by
  intro s l hs
  induction hs with
  | slnil => intro _ k _; simp
  | cons a hsub ih =>
    intro hpw k hk
    have hpw2 := (List.pairwise_cons.mp hpw).2
    have hha := (List.pairwise_cons.mp hpw).1
    have h1 := ih hpw2 k hk
    cases k with
    | zero => simpa using h1
    | succ m =>
      have h2 := take_succ_sum_le a _ (fun x hx => hha x hx) m
      simp only [List.take_succ_cons, List.sum_cons]
      omega
  | cons₂ a hsub ih =>
    intro hpw k hk
    have hpw2 := (List.pairwise_cons.mp hpw).2
    cases k with
    | zero => simp at hk
    | succ m =>
      have h1 := ih hpw2 m (by simpa using hk)
      simp only [List.take_succ_cons, List.sum_cons]
      omega

theorem exists_key_micromapSpatialSort {vmWorkItems : List OmmWorkItem} {j : Nat}
    (hj : j < vmWorkItems.length) :
    ∃ kv ∈ MicromapSpatialSort vmWorkItems, kv.2 = j := by
  refine ⟨(sortKeyOf j (vmWorkItems.getD j default), j), ?_, rfl⟩
  rw [(micromapSpatialSort_perm vmWorkItems).mem_iff]
  unfold sortKeysInit
  exact List.mem_map.mpr ⟨j, List.mem_range.mpr hj, rfl⟩

end Omm

namespace Omm

/-- If the serializer loop's cursor checks all pass (`advOk`), the number
of emitted descriptors cannot exceed `ommDescArrayCount`: the loop
advances by the global-format byte cost for every non-special item, the
sorted order puts the most expensive items first, and the byte budget was
sized from the global-format items only. -/
theorem ns_length_le_descCount (vmWorkItems : List OmmWorkItem) (fmt : OMMFormat)
    (hl : ∀ w ∈ vmWorkItems, w.subdivisionLevel ≤ kMaxSubdivLevel)
    (hm : ∀ w ∈ vmWorkItems, w.mCode < 2 ^ 60)
    (hadv : advOk (bird.GetBitCount fmt)
      (ommArrayDataSizeOf (CreateUsageHistograms vmWorkItems).1 fmt)
      (nsOf vmWorkItems (MicromapSpatialSort vmWorkItems)) 0) :
    (nsOf vmWorkItems (MicromapSpatialSort vmWorkItems)).length ≤
      ommDescArrayCountOf (CreateUsageHistograms vmWorkItems).1 fmt := by
  by_contra hgt
  push_neg at hgt
  set ns := nsOf vmWorkItems (MicromapSpatialSort vmWorkItems) with hns
  set dc := ommDescArrayCountOf (CreateUsageHistograms vmWorkItems).1 fmt with hdc
  set ds := ommArrayDataSizeOf (CreateUsageHistograms vmWorkItems).1 fmt with hds
  have hn1 : 1 ≤ ns.length := by omega
  -- sorted levels along ns
  have hsortlvl : (ns.map Prod.fst).Pairwise (· ≥ ·) :=
    nsOf_levels_pairwise vmWorkItems hm (MicromapSpatialSort vmWorkItems)
      (micromapSpatialSort_sorted vmWorkItems)
      (fun kv hkv => mem_micromapSpatialSort hkv)
  -- the byte advances along ns, sorted non-increasingly
  have hadvs : ((ns.map Prod.fst).map (arrayByteAdvance (bird.GetBitCount fmt))).Pairwise
      (· ≥ ·) :=
    List.Pairwise.map _ (fun a b hb => arrayByteAdvance_mono _ hb) hsortlvl
  have hmapmap : (ns.map Prod.fst).map (arrayByteAdvance (bird.GetBitCount fmt)) =
      ns.map fun lf => arrayByteAdvance (bird.GetBitCount fmt) lf.1 := by
    rw [List.map_map]; rfl
  -- the global-format entries of ns as a sublist
  have hsub : ((ns.filter fun lf => decide (lf.2 = fmt)).map
        fun lf => arrayByteAdvance (bird.GetBitCount fmt) lf.1).Sublist
      (ns.map fun lf => arrayByteAdvance (bird.GetBitCount fmt) lf.1) :=
    List.Sublist.map _ (List.filter_sublist ns)
  -- permutation with the item-order projection
  have hperm : List.Perm ns (vmWorkItems.filterMap workItemProj) :=
    nsOf_micromapSpatialSort_perm vmWorkItems
  have hpermf : List.Perm (ns.filter fun lf => decide (lf.2 = fmt))
      ((vmWorkItems.filterMap workItemProj).filter fun lf => decide (lf.2 = fmt)) :=
    hperm.filter _
  have hlenS : (ns.filter fun lf => decide (lf.2 = fmt)).length = dc := by
    rw [hpermf.length_eq, hdc, ommDescArrayCountOf_eq vmWorkItems fmt hl]
  have hsumS : ((ns.filter fun lf => decide (lf.2 = fmt)).map
      fun lf => arrayByteAdvance (bird.GetBitCount fmt) lf.1).sum = ds := by
    rw [(hpermf.map _).sum_eq, hds, ommArrayDataSizeOf_eq vmWorkItems fmt hl]
  -- prefix bound from the cursor checks
  have hpre := advOk_prefix (bird.GetBitCount fmt) ds ns 0 hadv (ns.length - 1) (by omega)
  rw [Nat.zero_add] at hpre
  -- top-k bound
  have htop := sublist_sum_le_take hsub (hmapmap ▸ hadvs) (ns.length - 1)
    (by rw [List.length_map, hlenS]; omega)
  rw [← List.map_take] at htop
  omega
end Omm

namespace Omm

theorem bakeImpl_ok_elim (digest lshHash : List Nat → Nat) (lshRng : Nat → Nat)
    (lshLK : Nat → Nat → Nat × Nat) (desc : BakeInputDescModel)
    (vmWorkItems : List OmmWorkItem) (res : BakeResultModel)
    (h : BakeImpl digest lshHash lshRng lshLK desc vmWorkItems = .ok res) :
    bakeSerializeStage desc
      (pipelineWorkItems digest lshHash lshRng lshLK desc (Options.ofFlags desc.bakeFlags)
        vmWorkItems) = .ok res := by
  unfold BakeImpl at h
  rcases validateWorkloadSize_cases (Options.ofFlags desc.bakeFlags) vmWorkItems with hv | hv <;>
    rw [hv] at h
  · rw [show (guardResult Result.SUCCESS : Except Result Unit) = .ok () from rfl,
      show ∀ f : Unit → Except Result BakeResultModel, ((Except.ok () : Except Result Unit)
        >>= f) = f () from fun _ => rfl] at h
    rcases resampleFlagCheck_cases (Options.ofFlags desc.bakeFlags) with hr | hr <;>
      rw [hr] at h
    · rw [show (guardResult Result.SUCCESS : Except Result Unit) = .ok () from rfl,
        show ∀ f : Unit → Except Result BakeResultModel, ((Except.ok () : Except Result Unit)
          >>= f) = f () from fun _ => rfl] at h
      exact h
    · rw [show (guardResult Result.INVALID_ARGUMENT : Except Result Unit) =
          .error Result.INVALID_ARGUMENT from rfl,
        show ∀ f : Unit → Except Result BakeResultModel,
          ((Except.error Result.INVALID_ARGUMENT : Except Result Unit) >>= f) =
            .error Result.INVALID_ARGUMENT from fun _ => rfl] at h
      exact absurd h (by simp)
  · rw [show (guardResult Result.WORKLOAD_TOO_BIG : Except Result Unit) =
        .error Result.WORKLOAD_TOO_BIG from rfl,
      show ∀ f : Unit → Except Result BakeResultModel,
        ((Except.error Result.WORKLOAD_TOO_BIG : Except Result Unit) >>= f) =
          .error Result.WORKLOAD_TOO_BIG from fun _ => rfl] at h
    exact absurd h (by simp)

theorem serialize_ok_elim (desc : BakeInputDescModel) (vmWorkItems : List OmmWorkItem)
    (ah ihist : OMMFormat → Nat → Nat) (sortKeys : List (Nat × Nat)) (res : BakeResultModel)
    (h : Serialize desc vmWorkItems ah ihist sortKeys = .ok res) :
    ∃ st : List OmmWorkItem × List OmmDescModel × List Nat,
      res = serializeFinish desc ah ihist st ∧
      ((ommDescArrayCountOf ah desc.ommFormat ≠ 0 ∧
          serializeLoop (bird.GetBitCount desc.ommFormat)
            (ommArrayDataSizeOf ah desc.ommFormat) sortKeys vmWorkItems 0 0 []
            (List.replicate (ommArrayDataSizeOf ah desc.ommFormat) 0) = .ok st) ∨
        (ommDescArrayCountOf ah desc.ommFormat = 0 ∧ st = (vmWorkItems, [], []))) := by
  unfold Serialize at h
  split at h
  · exact absurd h (by simp)
  · split at h
    next e heq => exact absurd h (by simp)
    next st heq =>
      refine ⟨st, (Except.ok.inj h).symm, ?_⟩
      split at heq
      next hne => exact Or.inl ⟨hne, heq⟩
      next hz => exact Or.inr ⟨by omega, (Except.ok.inj heq).symm⟩

theorem foldl_inv_mem {α β : Type} (Q : β → Prop) :
    ∀ (l : List α) (f : β → α → β),
      (∀ b a, a ∈ l → Q b → Q (f b a)) → ∀ b : β, Q b → Q (l.foldl f b) := by
  intro l
  induction l with
  | nil => intro f _ b hb; exact hb
  | cons a t ih =>
    intro f hf b hb
    exact ih f (fun b2 a2 ha2 => hf b2 a2 (List.mem_cons_of_mem _ ha2)) _
      (hf b a (List.mem_cons_self _ _) hb)

theorem fillIndexBuffer_length (triangleCount : Nat) (vmWorkItems : List OmmWorkItem) :
    (fillIndexBuffer triangleCount vmWorkItems).length = triangleCount := by
  unfold fillIndexBuffer
  refine foldl_inv (fun (buf : List Int) => buf.length = triangleCount) _ ?_ vmWorkItems _
    (by simp)
  intro buf vm hbuf
  refine foldl_inv (fun (b2 : List Int) => b2.length = triangleCount) _ ?_ _ _ hbuf
  intro b2 pidx hb2
  rw [List.length_set]
  exact hb2

/-- Every entry of the filled index buffer is the default sentinel or one
work item's written value. -/
theorem fillIndexBuffer_entries (triangleCount : Nat) (vmWorkItems : List OmmWorkItem)
    (i : Nat) (e : Int) (hi : (fillIndexBuffer triangleCount vmWorkItems)[i]? = some e) :
    e = kFullyUnknownOpaque ∨ ∃ w ∈ vmWorkItems,
      e = (if w.vmSpecialIndex ≠ kNoSpecialIndex then w.vmSpecialIndex
           else toInt32 w.vmDescOffset) := by
  revert i e
  unfold fillIndexBuffer
  refine foldl_inv_mem (fun (buf : List Int) => ∀ (i : Nat) (e : Int), buf[i]? = some e →
    e = kFullyUnknownOpaque ∨ ∃ w ∈ vmWorkItems,
      e = (if w.vmSpecialIndex ≠ kNoSpecialIndex then w.vmSpecialIndex
           else toInt32 w.vmDescOffset)) vmWorkItems _ ?_ _ ?_
  · intro buf vm hvm hQ
    refine foldl_inv (fun (b2 : List Int) => ∀ (i : Nat) (e : Int), b2[i]? = some e →
      e = kFullyUnknownOpaque ∨ ∃ w ∈ vmWorkItems,
        e = (if w.vmSpecialIndex ≠ kNoSpecialIndex then w.vmSpecialIndex
             else toInt32 w.vmDescOffset)) _ ?_ _ _ hQ
    intro b2 pidx hb2 i e hie
    rw [List.getElem?_set] at hie
    split at hie
    · split at hie
      · exact Or.inr ⟨vm, hvm, (Option.some.inj hie).symm⟩
      · exact absurd hie (by simp)
    · exact hb2 i e hie
  · intro i e hie
    rw [List.getElem?_replicate] at hie
    split at hie
    · exact Or.inl (Option.some.inj hie).symm
    · exact absurd hie (by simp)

theorem toInt32_small {u : Nat} (h : u < 2147483648) : toInt32 u = (u : Int) := by
  unfold toInt32
  rw [Nat.mod_eq_of_lt (by omega)]
  rw [if_pos h]

theorem toInt32_descOffsetInvalid : toInt32 kDescOffsetInvalid = -1 := by decide

theorem toInt16_id {i : Int} (h1 : -4 ≤ i) (h2 : i < 32768) : toInt16 i = i := by
  unfold toInt16
  dsimp only
  split
  next hlt => omega
  next hlt => omega

end Omm

namespace Omm

theorem serializeFinish_descArray (desc : BakeInputDescModel) (ah ihist : OMMFormat → Nat → Nat)
    (st : List OmmWorkItem × List OmmDescModel × List Nat) :
    (serializeFinish desc ah ihist st).ommDescArray = st.2.1 := by
  unfold serializeFinish
  split <;> rfl

theorem serializeFinish_indexBuffer (desc : BakeInputDescModel)
    (ah ihist : OMMFormat → Nat → Nat) (st : List OmmWorkItem × List OmmDescModel × List Nat) :
    ((serializeFinish desc ah ihist st).ommIndexBuffer =
        (fillIndexBuffer (desc.indexCount / 3) st.1).map toInt16 ∧
      desc.indexCount / 3 ≤ 32767) ∨
    (serializeFinish desc ah ihist st).ommIndexBuffer =
      fillIndexBuffer (desc.indexCount / 3) st.1 := by
  unfold serializeFinish
  split
  next hcond =>
    refine Or.inl ⟨rfl, ?_⟩
    exact of_decide_eq_true ((Bool.and_eq_true _ _).mp hcond).1
  next => exact Or.inr rfl

/-- Facts about the output stages on a successful run: the descriptor
array is sorted by non-increasing subdivision level, and every index
buffer entry is either a valid descriptor offset or a sentinel. -/
theorem bakeSerialize_ok_facts (desc : BakeInputDescModel) (p : List OmmWorkItem)
    (res : BakeResultModel)
    (hinv : ∀ w ∈ p, ItemInv w)
    (hplen : p.length ≤ desc.indexCount / 3)
    (hic : desc.indexCount ≤ 4294967295)
    (h : bakeSerializeStage desc p = .ok res) :
    ((res.ommDescArray.map fun d => d.subdivisionLevel).Pairwise (· ≥ ·)) ∧
    res.ommDescArray.length =
      ommDescArrayCountOf (CreateUsageHistograms p).1 desc.ommFormat ∧
    (∀ (i : Nat) (e : Int), res.ommIndexBuffer[i]? = some e →
      (0 ≤ e ∧ e < (res.ommDescArray.length : Int)) ∨
        e = -1 ∨ e = -2 ∨ e = -3 ∨ e = -4) := by
  have htc : desc.indexCount / 3 < 2147483648 := by omega
  unfold bakeSerializeStage at h
  rcases serialize_ok_elim _ _ _ _ _ _ h with ⟨st, hres, hcase⟩
  have hl12 : ∀ w ∈ p, w.subdivisionLevel ≤ kMaxSubdivLevel := fun w hw => (hinv w hw).1
  have hm60 : ∀ w ∈ p, w.mCode < 2 ^ 60 := fun w hw => (hinv w hw).2.1
  have hdescA : res.ommDescArray = st.2.1 := by rw [hres, serializeFinish_descArray]
  have hibufA := serializeFinish_indexBuffer desc (CreateUsageHistograms p).1
    (CreateUsageHistograms p).2 st
  rcases hcase with ⟨hne, hloop⟩ | ⟨hzero, hst⟩
  · have hdescs := serializeLoop_ok_descs _ _ _ _ _ _ _ _ _ hloop
    have hitems := serializeLoop_ok_items _ _ _ _ _ _ _ _ _ hloop
    have hkeys : ∀ (j : Nat) (w : OmmWorkItem), p[j]? = some w →
        w.vmSpecialIndex = kNoSpecialIndex →
        w.vmDescOffset < 0 ∨ ∃ kv ∈ MicromapSpatialSort p, kv.2 = j := by
      intro j w hj _
      exact Or.inr (exists_key_micromapSpatialSort (List.getElem?_eq_some_iff.mp hj).1)
    have hofflt := serializeLoop_ok_descOffset_lt _ _ _ _ _ _ _ _ _ hloop hkeys
    have hdlen : res.ommDescArray.length = (nsOf p (MicromapSpatialSort p)).length := by
      rw [hdescA, hdescs.1]
      simp [emitDescs_length]
    have hdcbound : (nsOf p (MicromapSpatialSort p)).length ≤ p.length := by
      rw [(nsOf_micromapSpatialSort_perm p).length_eq]
      exact List.length_filterMap_le _ _
    have hfill : ∀ (i : Nat) (e0 : Int),
        (fillIndexBuffer (desc.indexCount / 3) st.1)[i]? = some e0 →
        (0 ≤ e0 ∧ e0 < ((nsOf p (MicromapSpatialSort p)).length : Int)) ∨
          (-4 ≤ e0 ∧ e0 ≤ -1) := by
      intro i e0 hie
      rcases fillIndexBuffer_entries _ _ _ _ hie with heq | ⟨w, hw, heq⟩
      · exact Or.inr ⟨by rw [heq]; decide, by rw [heq]; decide⟩
      · rcases List.getElem?_of_mem hw with ⟨j, hj⟩
        rcases hitems.2 j w hj with ⟨w0, hw0, hsp, _, _⟩
        by_cases hns : w.vmSpecialIndex = kNoSpecialIndex
        · rw [if_neg (not_not_intro hns)] at heq
          have hlt := hofflt j w hj hns
          have hdo32 : w.vmDescOffset < 2147483648 := by omega
          rw [heq, toInt32_small hdo32]
          exact Or.inl ⟨by omega, by omega⟩
        · rw [if_pos hns] at heq
          rcases (hinv w0 (List.getElem?_mem hw0)).2.2.2 with hz | hrange
          · rw [hz] at hsp
            exact absurd hsp hns
          · rw [heq, hsp]
            exact Or.inr hrange
    have hnsle := ns_length_le_descCount p desc.ommFormat hl12 hm60 hdescs.2
    have hdcle : ommDescArrayCountOf (CreateUsageHistograms p).1 desc.ommFormat ≤
        (nsOf p (MicromapSpatialSort p)).length := by
      have hpf := ((nsOf_micromapSpatialSort_perm p).filter
        (fun lf => decide (lf.2 = desc.ommFormat))).length_eq
      rw [ommDescArrayCountOf_eq p desc.ommFormat hl12, ← hpf]
      exact List.length_filter_le _ _
    refine ⟨?_, ?_, ?_⟩
    · rw [hdescA, hdescs.1]
      simp only [List.nil_append]
      rw [emitDescs_map_level]
      exact nsOf_levels_pairwise p hm60 _ (micromapSpatialSort_sorted p)
        (fun kv hkv => mem_micromapSpatialSort hkv)
    · rw [hdlen]
      omega
    · intro i e hie
      rw [hres] at hie
      rcases hibufA with ⟨hib, htc16⟩ | hib
      · rw [hib, List.getElem?_map] at hie
        cases hfe : (fillIndexBuffer (desc.indexCount / 3) st.1)[i]? with
        | none => rw [hfe] at hie; exact absurd hie (by simp)
        | some e0 =>
          rw [hfe] at hie
          have he : e = toInt16 e0 := (Option.some.inj hie).symm
          rcases hfill i e0 hfe with ⟨h0, hlt⟩ | ⟨hge, hle⟩
          · have hid : toInt16 e0 = e0 := toInt16_id (by omega) (by omega)
            rw [he, hid, hdlen]
            exact Or.inl ⟨h0, hlt⟩
          · have hid : toInt16 e0 = e0 := toInt16_id (by omega) (by omega)
            rw [he, hid]
            omega
      · rw [hib] at hie
        rcases hfill i e hie with ⟨h0, hlt⟩ | ⟨hge, hle⟩
        · rw [hdlen]
          exact Or.inl ⟨h0, hlt⟩
        · omega
  · refine ⟨?_, ?_, ?_⟩
    · rw [hdescA, hst]
      simp
    · rw [hdescA, hst, hzero]
      simp
    · intro i e hie
      rw [hres] at hie
      have hfill : ∀ (i2 : Nat) (e0 : Int),
          (fillIndexBuffer (desc.indexCount / 3) st.1)[i2]? = some e0 →
          (-4 ≤ e0 ∧ e0 ≤ -1) ∨ e0 = -4 := by
        intro i2 e0 hie2
        rcases fillIndexBuffer_entries _ _ _ _ hie2 with heq | ⟨w, hw, heq⟩
        · exact Or.inr (by rw [heq]; decide)
        · rw [hst] at hw
          by_cases hns : w.vmSpecialIndex = kNoSpecialIndex
          · rw [if_neg (not_not_intro hns)] at heq
            rw [(hinv w hw).2.2.1] at heq
            rw [heq, toInt32_descOffsetInvalid]
            exact Or.inl (by constructor <;> decide)
          · rw [if_pos hns] at heq
            rcases (hinv w hw).2.2.2 with hz | hrange
            · exact absurd hz hns
            · rw [heq]
              exact Or.inl hrange
      rcases hibufA with ⟨hib, htc16⟩ | hib
      · rw [hib, List.getElem?_map] at hie
        cases hfe : (fillIndexBuffer (desc.indexCount / 3) st.1)[i]? with
        | none => rw [hfe] at hie; exact absurd hie (by simp)
        | some e0 =>
          rw [hfe] at hie
          have he : e = toInt16 e0 := (Option.some.inj hie).symm
          rcases hfill i e0 hfe with ⟨hge, hle⟩ | hm4 <;>
            [skip; (rw [hm4] at he)]
          · have hid : toInt16 e0 = e0 := toInt16_id (by omega) (by omega)
            rw [he, hid]
            omega
          · rw [show toInt16 (-4) = -4 from by decide] at he
            omega
      · rw [hib] at hie
        rcases hfill i e hie with ⟨hge, hle⟩ | hm4
        · omega
        · omega

end Omm

namespace Omm

theorem pairwise_level_getElem2 (descs : List OmmDescModel)
    (hpw : (descs.map fun d => d.subdivisionLevel).Pairwise (· ≥ ·)) :
    ∀ (i j : Nat), i < j → ∀ (di dj : OmmDescModel), descs[i]? = some di →
      descs[j]? = some dj → dj.subdivisionLevel ≤ di.subdivisionLevel := by
  intro i j hij di dj hdi hdj
  obtain ⟨hi, hdi2⟩ := List.getElem?_eq_some_iff.mp hdi
  obtain ⟨hj, hdj2⟩ := List.getElem?_eq_some_iff.mp hdj
  have hp := List.pairwise_iff_getElem.mp hpw i j
    (by rw [List.length_map]; exact hi) (by rw [List.length_map]; exact hj) hij
  simp only [List.getElem_map] at hp
  rw [hdi2, hdj2] at hp
  exact hp

/-- C2: after a successful bake, every entry of the output index buffer
is either a valid descriptor offset in `[0, ommDescArrayCount)` (with
`ommDescArrayCount` the length of the emitted descriptor array) or one of
the sentinels −1, −2, −3, −4 — also when the per-primitive formats mix
`OC1_2_State` and `OC1_4_State`: in that case either the global-format
byte budget is exhausted and the bake fails before any offset can leave
the valid range, or no descriptors are due and the foreign-format items
keep the invalid `uint32_t` descriptor offset, which the `int32_t` store
turns into the sentinel −1.  The hypotheses are the source's own
invariants on the classified work items: levels at most 12, the asserted
Morton-code bound, the constructor's descriptor offset and special index,
at most one work item per input triangle, and a `uint32_t` index count. -/
theorem C2_index_buffer_entries_valid (digest lshHash : List Nat → Nat) (lshRng : Nat → Nat)
    (lshLK : Nat → Nat → Nat × Nat) (desc : BakeInputDescModel)
    (vmWorkItems : List OmmWorkItem) (res : BakeResultModel)
    (hinv : ∀ w ∈ vmWorkItems, ItemInv w)
    (hcount : vmWorkItems.length ≤ desc.indexCount / 3)
    (hic : desc.indexCount ≤ 4294967295)
    (hok : BakeImpl digest lshHash lshRng lshLK desc vmWorkItems = .ok res) :
    ∀ (i : Nat) (e : Int), res.ommIndexBuffer[i]? = some e →
      (0 ≤ e ∧ e < (res.ommDescArray.length : Int)) ∨
        e = -1 ∨ e = -2 ∨ e = -3 ∨ e = -4 := by
  have hsub := bakeImpl_ok_elim _ _ _ _ _ _ _ hok
  have hpinv : ItemsInv vmWorkItems.length
      (pipelineWorkItems digest lshHash lshRng lshLK desc
        (Options.ofFlags desc.bakeFlags) vmWorkItems) :=
    pipelineWorkItems_inv _ _ _ _ _ _ ⟨rfl, hinv⟩
  exact (bakeSerialize_ok_facts desc _ res hpinv.2
    (by rw [hpinv.1]; exact hcount) hic hsub).2.2

def c2Desc : BakeInputDescModel :=
  { ommFormat := OMMFormat.OC1_4_State, rejectionThreshold := 0, bakeFlags := 0,
    indexCount := 3 }

def c2Item : OmmWorkItem :=
  { subdivisionLevel := 1, vmFormat := OMMFormat.OC1_4_State, primitiveIndices := [0],
    vmDescOffset := kDescOffsetInvalid, vmSpecialIndex := 0,
    vmStates := [OpacityState.Opaque, OpacityState.Transparent,
      OpacityState.Opaque, OpacityState.Transparent],
    mCode := 0, aabbX := 1, aabbY := 1 }

def c2Res : BakeResultModel :=
  { ommArrayData := [17],
    ommDescArray := [{ subdivisionLevel := 1, format := 2, offset := 0 }],
    ommIndexBuffer := [0],
    ommArrayHistogram := [{ count := 1, subdivisionLevel := 1, format := 2 }],
    ommIndexHistogram := [{ count := 1, subdivisionLevel := 1, format := 2 }],
    ommIndexFormat := IndexFormat.I16_UINT }

theorem C2_index_buffer_entries_valid_witness :
    c2Res.ommIndexBuffer[0]? = some 0 ∧
      ((0 ≤ (0 : Int) ∧ (0 : Int) < (c2Res.ommDescArray.length : Int)) ∨
        (0 : Int) = -1 ∨ (0 : Int) = -2 ∨ (0 : Int) = -3 ∨ (0 : Int) = -4) :=
  ⟨by decide,
    C2_index_buffer_entries_valid (fun _ => 0) (fun _ => 0) (fun _ => 0) (fun _ _ => (0, 0))
      c2Desc [c2Item] c2Res
      (by
        intro w hw
        rw [List.mem_singleton] at hw
        subst hw
        exact ⟨by decide, by decide, by decide, Or.inl (by decide)⟩)
      (by decide) (by decide) (by decide) 0 0 (by decide)⟩

/-- C5: after a successful bake, the descriptors of `ommDescArray` appear
in non-increasing order of subdivision level: for positions `i < j`,
`ommDescArray[i].subdivisionLevel ≥ ommDescArray[j].subdivisionLevel`.
The spatial sort orders the keys descending with the subdivision level in
the topmost bits above the (source-asserted, sub-`2^60`) Morton code, and
the serializer emits descriptors in key order, skipping special items. -/
theorem C5_descriptors_sorted_by_level (digest lshHash : List Nat → Nat) (lshRng : Nat → Nat)
    (lshLK : Nat → Nat → Nat × Nat) (desc : BakeInputDescModel)
    (vmWorkItems : List OmmWorkItem) (res : BakeResultModel)
    (hinv : ∀ w ∈ vmWorkItems, ItemInv w)
    (hcount : vmWorkItems.length ≤ desc.indexCount / 3)
    (hic : desc.indexCount ≤ 4294967295)
    (hok : BakeImpl digest lshHash lshRng lshLK desc vmWorkItems = .ok res) :
    ∀ (i j : Nat), i < j → ∀ (di dj : OmmDescModel), res.ommDescArray[i]? = some di →
      res.ommDescArray[j]? = some dj → dj.subdivisionLevel ≤ di.subdivisionLevel := by
  have hsub := bakeImpl_ok_elim _ _ _ _ _ _ _ hok
  have hpinv : ItemsInv vmWorkItems.length
      (pipelineWorkItems digest lshHash lshRng lshLK desc
        (Options.ofFlags desc.bakeFlags) vmWorkItems) :=
    pipelineWorkItems_inv _ _ _ _ _ _ ⟨rfl, hinv⟩
  exact pairwise_level_getElem2 res.ommDescArray
    (bakeSerialize_ok_facts desc _ res hpinv.2 (by rw [hpinv.1]; exact hcount) hic hsub).1

def c5Desc : BakeInputDescModel :=
  { ommFormat := OMMFormat.OC1_4_State, rejectionThreshold := 0, bakeFlags := 0,
    indexCount := 6 }

def c5ItemA : OmmWorkItem :=
  { subdivisionLevel := 1, vmFormat := OMMFormat.OC1_4_State, primitiveIndices := [0],
    vmDescOffset := kDescOffsetInvalid, vmSpecialIndex := 0,
    vmStates := [OpacityState.Opaque, OpacityState.Transparent,
      OpacityState.Opaque, OpacityState.Transparent],
    mCode := 0, aabbX := 1, aabbY := 1 }

def c5ItemB : OmmWorkItem :=
  { subdivisionLevel := 2, vmFormat := OMMFormat.OC1_4_State, primitiveIndices := [1],
    vmDescOffset := kDescOffsetInvalid, vmSpecialIndex := 0,
    vmStates := [OpacityState.Opaque, OpacityState.Transparent] ++
      List.replicate 14 OpacityState.Opaque,
    mCode := 0, aabbX := 1, aabbY := 1 }

def c5Res : BakeResultModel :=
  { ommArrayData := [81, 85, 85, 85, 17],
    ommDescArray := [{ subdivisionLevel := 2, format := 2, offset := 0 },
                     { subdivisionLevel := 1, format := 2, offset := 4 }],
    ommIndexBuffer := [1, 0],
    ommArrayHistogram := [{ count := 1, subdivisionLevel := 1, format := 2 },
                          { count := 1, subdivisionLevel := 2, format := 2 }],
    ommIndexHistogram := [{ count := 1, subdivisionLevel := 1, format := 2 },
                          { count := 1, subdivisionLevel := 2, format := 2 }],
    ommIndexFormat := IndexFormat.I16_UINT }

theorem C5_descriptors_sorted_by_level_witness :
    c5Res.ommDescArray[0]? = some { subdivisionLevel := 2, format := 2, offset := 0 } ∧
    c5Res.ommDescArray[1]? = some { subdivisionLevel := 1, format := 2, offset := 4 } ∧
    ({ subdivisionLevel := 1, format := 2, offset := 4 } : OmmDescModel).subdivisionLevel ≤
      ({ subdivisionLevel := 2, format := 2, offset := 0 } : OmmDescModel).subdivisionLevel :=
  ⟨by decide, by decide,
    C5_descriptors_sorted_by_level (fun l => l.length) (fun _ => 0) (fun _ => 0)
      (fun _ _ => (0, 0)) c5Desc [c5ItemA, c5ItemB] c5Res
      (by
        intro w hw
        rcases List.mem_cons.mp hw with rfl | hw2
        · exact ⟨by decide, by decide, by decide, Or.inl (by decide)⟩
        · rw [List.mem_singleton] at hw2
          subst hw2
          exact ⟨by decide, by decide, by decide, Or.inl (by decide)⟩)
      (by decide) (by decide) (by decide) 0 1 (by decide)
      { subdivisionLevel := 2, format := 2, offset := 0 }
      { subdivisionLevel := 1, format := 2, offset := 4 }
      (by decide) (by decide)⟩

end Omm
